import Mathlib

/-!
Verification development for the Ziron transport engine
(`src/lib/Transport.ts` and `src/lib/Protocol.ts`).

The development gives a shallow embedding of the transport's data model and
operations: the mixed-JSON deep encode/resolve walks, the binary-content
frame parser, stream-id allocation, bad-connection handling, the inbound
action-packet dispatcher, the invoke response-timeout arming flow, the
listener error routing of `emitMessage`, and the single-shot invoke
callbacks.  Helper modules of the repository that are not part of the
given sources (`Utils.ts`, `DataType.ts`, the stream classes) are modelled
from the specification where a claim depends on them; each such definition
carries a doc comment starting with `Modelled from the spec:`.
-/

namespace Ziron

/-! ## Constants (Utils.ts / Protocol.ts) -/

/-- `Number.MAX_SAFE_INTEGER` of the JavaScript runtime. -/
def MAX_SAFE_INTEGER : Int := 9007199254740991

/-- `Number.MIN_SAFE_INTEGER` of the JavaScript runtime. -/
def MIN_SAFE_INTEGER : Int := -9007199254740991

/-- Modelled from the spec: `MAX_UINT_32` from `Utils.ts` (file missing from
the sources); the spec fixes the continuation sentinel to `MAX_UINT_32`,
the largest unsigned 32-bit value. -/
def MAX_UINT_32 : Nat := 4294967295

/-- `NEXT_BINARIES_PACKET_TOKEN` from `Protocol.ts` (equals `MAX_UINT_32`). -/
def NEXT_BINARIES_PACKET_TOKEN : Nat := MAX_UINT_32

/-- `streamsPerPackageLimit` of `Transport.DEFAULT_OPTIONS`. -/
def DEFAULT_STREAMS_PER_PACKAGE_LIMIT : Nat := 20

/-! ## Key escaping (Utils.ts, modelled from the spec)

`escapePlaceholderSequence` / `unescapePlaceholderSequence` live in
`Utils.ts`, which is not part of the given sources.  The spec describes
them as an invertible key-escape transform that prevents user keys named
`_b`/`_s` from colliding with placeholder markers, using a conflict-free
escape sequence that doubles a sentinel prefix character.  We model the
standard such transform: a key consisting of one or more underscores
followed by a single `b` or `s` receives one extra leading underscore on
encode; decode strips one leading underscore from keys of that shape that
carry at least two underscores. -/

/-- Is the character list of the form `_…_b` or `_…_s` (one or more
underscores followed by exactly `b` or `s`)?  These are the keys that
could be confused with placeholder markers after stripping. -/
def isPlaceholderSeqChars (cs : List Char) : Bool :=
  let us := cs.takeWhile (fun c => c == '_')
  decide (0 < us.length) &&
    ((cs.drop us.length == ['b']) || (cs.drop us.length == ['s']))

/-- Character-level escape: prefix one `_` to a confusable key. -/
def escapeChars (cs : List Char) : List Char :=
  if isPlaceholderSeqChars cs then '_' :: cs else cs

/-- Character-level unescape: strip one `_` when the remainder is a
confusable key. -/
def unescapeChars : List Char → List Char
  | '_' :: rest => if isPlaceholderSeqChars rest then rest else '_' :: rest
  | cs => cs

/-- Modelled from the spec: `escapePlaceholderSequence` from `Utils.ts`
(missing from the sources).  The spec describes an invertible key-escape
transform chosen so no user key collides with the `_b`/`_s` placeholder
markers, doubling a sentinel prefix character; we prefix one extra
underscore to every key of the form `_…_b` / `_…_s`. -/
def escapePlaceholderSequence (s : String) : String :=
  String.mk (escapeChars s.toList)

/-- Modelled from the spec: `unescapePlaceholderSequence` from `Utils.ts`
(missing from the sources) — strips one leading underscore from escaped
keys, the inverse of `escapePlaceholderSequence`. -/
def unescapePlaceholderSequence (s : String) : String :=
  String.mk (unescapeChars s.toList)

/-! ## Stream-id allocation (`Transport._getNewStreamId`) -/

/-- The two stream-id counters of a transport
(`_objectStreamId`, `_binaryStreamId`). -/
structure StreamIdState where
  objId : Int := 1
  binId : Int := -1
deriving Repr, DecidableEq

/-- `Transport._getNewStreamId` — allocates a fresh stream id, positive for
object streams (post-incremented), negative for binary streams
(post-decremented), with wrap at the safe-integer bounds. -/
def getNewStreamId (binaryStream : Bool) (s : StreamIdState) : Int × StreamIdState :=
  if binaryStream then
    let cur := if s.binId < MIN_SAFE_INTEGER then -1 else s.binId
    (cur, { s with binId := cur - 1 })
  else
    let cur := if s.objId > MAX_SAFE_INTEGER then 1 else s.objId
    (cur, { s with objId := cur + 1 })

/-- `allocStreamIds` — runs a sequence of `_getNewStreamId` allocations
(`true` = binary stream) and collects the returned ids in order. -/
def allocStreamIds : List Bool → StreamIdState → List Int × StreamIdState
  | [], s => ([], s)
  | b :: rest, s =>
      let r := getNewStreamId b s
      let r2 := allocStreamIds rest r.2
      (r.1 :: r2.1, r2.2)

/-! ## Value model

`UVal` models the JavaScript values a user hands to the transport for
mixed encoding: JSON primitives, `Date`s, `ArrayBuffer` blobs,
`WriteStream`s, arrays and plain objects.  `JVal` models parsed wire
JSON (the output of `decodeJson`).  `DVal` models the values produced by
the resolve walk: wire JSON plus substituted blobs, read-stream handles,
the JavaScript `undefined` (from an out-of-range blob index), and `Date`
(never produced by the walk, present so structural comparison against a
user value containing a `Date` is expressible). -/

/-- An `ArrayBuffer`, as its byte list. -/
abbrev Blob := List Nat

/-- A user value passed to the mixed-JSON encode walk. -/
inductive UVal where
  | null
  | bool (b : Bool)
  | num (n : Int)
  | str (s : String)
  | date (t : Int)
  | blob (b : Blob)
  | wstream (binary : Bool)
  | arr (items : List UVal)
  | obj (fields : List (String × UVal))

/-- A parsed wire-JSON value (output of `decodeJson`). -/
inductive JVal where
  | null
  | bool (b : Bool)
  | num (n : Int)
  | str (s : String)
  | arr (items : List JVal)
  | obj (fields : List (String × JVal))

/-- A value produced by the mixed-JSON resolve walk. -/
inductive DVal where
  | null
  | bool (b : Bool)
  | num (n : Int)
  | str (s : String)
  | date (t : Int)
  | blob (b : Blob)
  | rstream (id : Int)
  | undef
  | arr (items : List DVal)
  | obj (fields : List (String × DVal))

/-- The mutable collections threaded through `_processMixedJSONDeep`:
the `binaries` array, the `streams` array (we record the allocated
stream ids in push order), and the two stream-id counters. -/
structure EncState where
  binaries : List Blob := []
  streams : List Int := []
  ids : StreamIdState := {}

/-- Modelled from the spec: `WriteStream.toJSON()` (the stream classes are
missing from the sources); used by the encode walk only when streams are
disabled.  The spec says disabled outbound streams are inlined via
`toJSON()`; its concrete output is unspecified, we model it as a tag
string. -/
def writeStreamToJSONModel : UVal := UVal.str "[WriteStream]"

mutual

/-- `Transport._processMixedJSONDeep` — deep-walks a user value, pushing
every `ArrayBuffer` into `binaries` and replacing it with a `{_b:index}`
marker, allocating an id for every `WriteStream` (when streams are
enabled), pushing it into `streams` and replacing it with a `{_s:id}`
marker, escaping all object keys, and passing `Date`s and primitives
through unchanged. -/
def processMixedJSONDeep (streamsEnabled : Bool) : UVal → EncState → UVal × EncState
  | .blob b, st =>
      (UVal.obj [("_b", UVal.num (st.binaries.length : Nat))],
        { st with binaries := st.binaries ++ [b] })
  | .wstream bin, st =>
      if streamsEnabled then
        let r := getNewStreamId bin st.ids
        (UVal.obj [("_s", UVal.num r.1)],
          { st with ids := r.2, streams := st.streams ++ [r.1] })
      else (writeStreamToJSONModel, st)
  | .arr items, st =>
      let r := processMixedList streamsEnabled items st
      (UVal.arr r.1, r.2)
  | .obj fields, st =>
      let r := processMixedFields streamsEnabled fields st
      (UVal.obj r.1, r.2)
  | .null, st => (UVal.null, st)
  | .bool b, st => (UVal.bool b, st)
  | .num n, st => (UVal.num n, st)
  | .str s, st => (UVal.str s, st)
  | .date t, st => (UVal.date t, st)

/-- Element-wise encode walk over an array (`for` loop of the `Array.isArray`
branch of `_processMixedJSONDeep`). -/
def processMixedList (streamsEnabled : Bool) : List UVal → EncState → List UVal × EncState
  | [], st => ([], st)
  | v :: rest, st =>
      let r1 := processMixedJSONDeep streamsEnabled v st
      let r2 := processMixedList streamsEnabled rest r1.2
      (r1.1 :: r2.1, r2.2)

/-- Field-wise encode walk over an object (`for…in` clone loop of
`_processMixedJSONDeep`), escaping each key. -/
def processMixedFields (streamsEnabled : Bool) :
    List (String × UVal) → EncState → List (String × UVal) × EncState
  | [], st => ([], st)
  | (k, v) :: rest, st =>
      let r1 := processMixedJSONDeep streamsEnabled v st
      let r2 := processMixedFields streamsEnabled rest r1.2
      ((escapePlaceholderSequence k, r1.1) :: r2.1, r2.2)

end

/-- Modelled from the spec: the JSON string form of a `Date` as produced by
`encodeJson` (`Date.prototype.toJSON` of the JavaScript runtime).  The
walks only rely on it being a string; we model it as an injective tag
string of the timestamp. -/
def dateToJSONString (t : Int) : String := "1970-...+" ++ toString t

mutual

/-- Models the `encodeJson` / `decodeJson` round trip applied to the output
of the encode walk: JSON primitives, arrays and objects survive
structurally; a `Date` serializes to its JSON string; an `ArrayBuffer` or
`WriteStream` reaching `JSON.stringify` (never produced by the encode walk)
yields an empty object, having no serializable own properties. -/
def toJson : UVal → JVal
  | .null => JVal.null
  | .bool b => JVal.bool b
  | .num n => JVal.num n
  | .str s => JVal.str s
  | .date t => JVal.str (dateToJSONString t)
  | .blob _ => JVal.obj []
  | .wstream _ => JVal.obj []
  | .arr items => JVal.arr (toJsonList items)
  | .obj fields => JVal.obj (toJsonFields fields)

/-- `toJson` on array elements. -/
def toJsonList : List UVal → List JVal
  | [] => []
  | v :: rest => toJson v :: toJsonList rest

/-- `toJson` on object fields. -/
def toJsonFields : List (String × UVal) → List (String × JVal)
  | [] => []
  | (k, v) :: rest => (k, toJson v) :: toJsonFields rest

end

/-- The `parseStreams` / `parseBinaries` options computed by
`Transport._processData` for the resolve walk. -/
structure ResolveOpts where
  parseStreams : Bool
  parseBinaries : Bool
deriving Repr, DecidableEq

/-- JavaScript property lookup `value[k]` on a parsed JSON object. -/
def jlookup (fields : List (String × JVal)) (k : String) : Option JVal :=
  (fields.find? (fun p => p.1 == k)).map (fun p => p.2)

/-- `typeof value[k] === 'number'` — returns the number bound to key `k`
when there is one. -/
def jlookupNum (fields : List (String × JVal)) (k : String) : Option Int :=
  match jlookup fields k with
  | some (JVal.num n) => some n
  | _ => none

mutual

/-- `Transport._internalResolveMixedJSONDeep` — deep-walks parsed wire
JSON, substituting `{_b:i}` markers with `binaries[i]` (when
`parseBinaries`), `{_s:sid}` markers with a new read stream (when
`parseStreams`, enforcing the per-package stream limit), and unescaping
the keys of ordinary objects.  The `Nat` argument and result thread the
`streamCount` of the walk; a thrown `Error` is an `Except.error`. -/
def internalResolveMixedJSONDeep (opts : ResolveOpts) (limit : Nat)
    (binaries : Option (List Blob)) :
    JVal → Nat → Except String (DVal × Nat)
  | .obj fields, c =>
      match (if opts.parseBinaries then jlookupNum fields "_b" else none) with
      | some n =>
          match binaries with
          | none => Except.error "Can not resolve binary data without binary content packet."
          | some bs =>
              Except.ok
                ((if h : 0 ≤ n ∧ n.toNat < bs.length then DVal.blob (bs.get ⟨n.toNat, h.2⟩)
                  else DVal.undef), c)
      | none =>
          match (if opts.parseStreams then jlookupNum fields "_s" else none) with
          | some sid =>
              if c ≥ limit then Except.error "Max stream limit reached."
              else Except.ok (DVal.rstream sid, c + 1)
          | none => do
              let r ← resolveFields opts limit binaries fields c
              pure (DVal.obj r.1, r.2)
  | .arr items, c => do
      let r ← resolveList opts limit binaries items c
      pure (DVal.arr r.1, r.2)
  | .null, c => Except.ok (DVal.null, c)
  | .bool b, c => Except.ok (DVal.bool b, c)
  | .num n, c => Except.ok (DVal.num n, c)
  | .str s, c => Except.ok (DVal.str s, c)

/-- Resolve walk over array elements. -/
def resolveList (opts : ResolveOpts) (limit : Nat) (binaries : Option (List Blob)) :
    List JVal → Nat → Except String (List DVal × Nat)
  | [], c => Except.ok ([], c)
  | v :: rest, c => do
      let r1 ← internalResolveMixedJSONDeep opts limit binaries v c
      let r2 ← resolveList opts limit binaries rest r1.2
      pure (r1.1 :: r2.1, r2.2)

/-- Resolve walk over the fields of an ordinary object: each key is
unescaped and its value resolved (the clone loop of
`_internalResolveMixedJSONDeep`). -/
def resolveFields (opts : ResolveOpts) (limit : Nat) (binaries : Option (List Blob)) :
    List (String × JVal) → Nat → Except String (List (String × DVal) × Nat)
  | [], c => Except.ok ([], c)
  | (k, v) :: rest, c => do
      let r1 ← internalResolveMixedJSONDeep opts limit binaries v c
      let r2 ← resolveFields opts limit binaries rest r1.2
      pure ((unescapePlaceholderSequence k, r1.1) :: r2.1, r2.2)

end

/-- `Transport._resolveMixedJSONDeep` — wraps the data in a fresh one-cell
array, runs the internal walk with `streamCount = 0` on that cell and
returns the resolved cell. -/
def resolveMixedJSONDeep (opts : ResolveOpts) (limit : Nat)
    (binaries : Option (List Blob)) (data : JVal) : Except String DVal :=
  (internalResolveMixedJSONDeep opts limit binaries data 0).map (fun r => r.1)

mutual

/-- Number of `WriteStream` nodes in a user value (each becomes one `{_s:…}`
marker when streams are enabled). -/
def streamNodeCount : UVal → Nat
  | .wstream _ => 1
  | .arr items => streamNodeCountList items
  | .obj fields => streamNodeCountFields fields
  | _ => 0

/-- `streamNodeCount` over array elements. -/
def streamNodeCountList : List UVal → Nat
  | [] => 0
  | v :: rest => streamNodeCount v + streamNodeCountList rest

/-- `streamNodeCount` over object fields. -/
def streamNodeCountFields : List (String × UVal) → Nat
  | [] => 0
  | (_, v) :: rest => streamNodeCount v + streamNodeCountFields rest

end

mutual

/-- The blobs of a user value in encode-walk (push) order. -/
def encBlobs : UVal → List Blob
  | .blob b => [b]
  | .arr items => encBlobsList items
  | .obj fields => encBlobsFields fields
  | _ => []

/-- `encBlobs` over array elements. -/
def encBlobsList : List UVal → List Blob
  | [] => []
  | v :: rest => encBlobs v ++ encBlobsList rest

/-- `encBlobs` over object fields. -/
def encBlobsFields : List (String × UVal) → List Blob
  | [] => []
  | (_, v) :: rest => encBlobs v ++ encBlobsFields rest

end

mutual

/-- Does the user value contain a `Date` node? -/
def hasDate : UVal → Bool
  | .date _ => true
  | .arr items => hasDateList items
  | .obj fields => hasDateFields fields
  | _ => false

/-- `hasDate` over array elements. -/
def hasDateList : List UVal → Bool
  | [] => false
  | v :: rest => hasDate v || hasDateList rest

/-- `hasDate` over object fields. -/
def hasDateFields : List (String × UVal) → Bool
  | [] => false
  | (_, v) :: rest => hasDate v || hasDateFields rest

end

mutual

/-- The value the round-trip specification expects the decoder to return:
the user value with every `WriteStream` replaced by a read-stream handle
carrying the id the encoder allocates for it (same allocation order and
counters), every blob kept byte-identical, and everything else — keys
included — structurally unchanged. -/
def expectedResolved : UVal → StreamIdState → DVal × StreamIdState
  | .null, ids => (DVal.null, ids)
  | .bool b, ids => (DVal.bool b, ids)
  | .num n, ids => (DVal.num n, ids)
  | .str s, ids => (DVal.str s, ids)
  | .date t, ids => (DVal.date t, ids)
  | .blob b, ids => (DVal.blob b, ids)
  | .wstream bin, ids =>
      let r := getNewStreamId bin ids
      (DVal.rstream r.1, r.2)
  | .arr items, ids =>
      let r := expectedResolvedList items ids
      (DVal.arr r.1, r.2)
  | .obj fields, ids =>
      let r := expectedResolvedFields fields ids
      (DVal.obj r.1, r.2)

/-- `expectedResolved` over array elements. -/
def expectedResolvedList : List UVal → StreamIdState → List DVal × StreamIdState
  | [], ids => ([], ids)
  | v :: rest, ids =>
      let r1 := expectedResolved v ids
      let r2 := expectedResolvedList rest r1.2
      (r1.1 :: r2.1, r2.2)

/-- `expectedResolved` over object fields. -/
def expectedResolvedFields : List (String × UVal) → StreamIdState → List (String × DVal) × StreamIdState
  | [], ids => ([], ids)
  | (k, v) :: rest, ids =>
      let r1 := expectedResolved v ids
      let r2 := expectedResolvedFields rest r1.2
      ((k, r1.1) :: r2.1, r2.2)

end

/-! ## Binary-content frames (`Transport._processBinaryContentPacket`)

Frames are modelled as byte lists.  `DataView.getUint32` uses its default
big-endian order; reading past the end of the view throws a `RangeError`
(modelled as `none` propagating to a thrown result).  `ArrayBuffer.slice`
clamps to the buffer, it never throws.  The 8-byte IEEE-754 float64 id
written by `setFloat64`/read by `getFloat64` is modelled as an abstract
injective 8-byte encoding of the (integral) id: the parser relies only on
its width and on the encode/decode round trip, never on the bit
pattern. -/

/-- Big-endian `DataView.getUint32`; `none` models the thrown `RangeError`
when fewer than 4 bytes remain. -/
def readU32 (bytes : List Nat) (offset : Nat) : Option Nat :=
  match bytes.drop offset with
  | b0 :: b1 :: b2 :: b3 :: _ =>
      some (b0 * 16777216 + b1 * 65536 + b2 * 256 + b3)
  | _ => none

/-- Big-endian 4-byte encoding written by `DataView.setUint32`. -/
def writeU32 (n : Nat) : List Nat :=
  [n / 16777216 % 256, n / 65536 % 256, n / 256 % 256, n % 256]

/-- The 8-byte wire form of a float64 id (`DataView.setFloat64`), modelled
as the big-endian bytes of the id offset into the unsigned 64-bit range. -/
def writeF64 (id : Int) : List Nat :=
  let m := (id + 9223372036854775808).toNat % 18446744073709551616
  [m / 72057594037927936 % 256, m / 281474976710656 % 256,
   m / 1099511627776 % 256, m / 4294967296 % 256,
   m / 16777216 % 256, m / 65536 % 256, m / 256 % 256, m % 256]

/-- `DataView.getFloat64` on the model encoding; `none` models the thrown
`RangeError` when fewer than 8 bytes remain. -/
def readF64 (bytes : List Nat) (offset : Nat) : Option Int :=
  match bytes.drop offset with
  | b0 :: b1 :: b2 :: b3 :: b4 :: b5 :: b6 :: b7 :: _ =>
      some ((((((((b0 : Int) * 256 + b1) * 256 + b2) * 256 + b3) * 256 + b4) * 256 + b5)
        * 256 + b6) * 256 + b7 - 9223372036854775808)
  | _ => none

/-- `ArrayBuffer.slice(offset, offset + len)` — clamped, never throws. -/
def sliceBytes (bytes : List Nat) (offset len : Nat) : List Nat :=
  (bytes.drop offset).take len

/-- The `while` loop of `_processBinaryContentPacket`: reads `(uint32 len,
len bytes)` blobs from `offset` until the view is exhausted or a length
equal to `NEXT_BINARIES_PACKET_TOKEN` is read (the continuation sentinel).
Blobs are collected only when a resolver is registered.  Returns the
collected blobs, the offset after the loop and whether the sentinel was
seen; `Except.error` models a thrown `RangeError`. -/
def scanBinaries (hasResolver : Bool) (bytes : List Nat) (offset : Nat) :
    Except Unit (List Blob × Nat × Bool) :=
  if h : offset < bytes.length then
    match readU32 bytes offset with
    | none => Except.error ()
    | some len =>
        if len = NEXT_BINARIES_PACKET_TOKEN then Except.ok ([], offset + 4, true)
        else
          match scanBinaries hasResolver bytes (offset + 4 + len) with
          | Except.error e => Except.error e
          | Except.ok (blobs, off, sentinel) =>
              Except.ok
                ((if hasResolver then sliceBytes bytes (offset + 4) len :: blobs else blobs),
                  off, sentinel)
  else Except.ok ([], offset, false)
termination_by bytes.length - offset
decreasing_by omega

/-- Observable effects of processing a binary-content frame: clearing a
resolver's timeout and firing its callback with the collected blobs. -/
inductive BCEvent where
  | timeoutCleared (id : Int)
  | fired (id : Int) (binaries : List Blob)
deriving Repr, DecidableEq

/-- Helper for the termination of `processBinaryContentPacket`: a sentinel
exit of the scan loop advanced the offset. -/
theorem scanBinaries_sentinel_bound (hasResolver : Bool) (bytes : List Nat) :
    ∀ offset blobs off,
      scanBinaries hasResolver bytes offset = Except.ok (blobs, off, true) →
      offset < bytes.length ∧ offset + 4 ≤ off := by
  suffices H : ∀ k offset, bytes.length - offset = k → ∀ blobs off,
      scanBinaries hasResolver bytes offset = Except.ok (blobs, off, true) →
      offset < bytes.length ∧ offset + 4 ≤ off by
    exact fun offset => H (bytes.length - offset) offset rfl
  intro k
  induction k using Nat.strong_induction_on with
  | _ k ih =>
    intro offset hk blobs off hscan
    rw [scanBinaries] at hscan
    by_cases h : offset < bytes.length
    · simp only [h, dif_pos] at hscan
      match hr : readU32 bytes offset with
      | none => rw [hr] at hscan; exact absurd hscan (by simp)
      | some len =>
          rw [hr] at hscan
          by_cases hs : len = NEXT_BINARIES_PACKET_TOKEN
          · simp only [hs, if_pos rfl] at hscan
            refine ⟨h, ?_⟩
            cases hscan
            omega
          · simp only [if_neg hs] at hscan
            match hrec : scanBinaries hasResolver bytes (offset + 4 + len) with
            | Except.error e => rw [hrec] at hscan; exact absurd hscan (by simp)
            | Except.ok (blobs2, off2, sent2) =>
                rw [hrec] at hscan
                simp only [Except.ok.injEq, Prod.mk.injEq] at hscan
                obtain ⟨hb, ho, hsent⟩ := hscan
                subst hsent
                have := ih (bytes.length - (offset + 4 + len)) (by omega) (offset + 4 + len)
                  rfl blobs2 off2 hrec
                omega
    · simp only [h, dif_neg, not_false_iff] at hscan
      exact absurd hscan (by simp)

/-- `Transport._processBinaryContentPacket` — reads the float64 frame id at
`offset`, scans the blob list, and, when a resolver is registered for the
id, removes it, clears its timeout and fires its callback once with the
blobs collected so far.  When the continuation sentinel was read, the
remainder of the view is processed as a further binary-content read.
Resolvers are modelled by their registered ids; `some` of the result is
`(remaining resolvers, events in order)`, `none` models a thrown
`RangeError`. -/
def processBinaryContentPacket (resolvers : List Int) (bytes : List Nat) (offset : Nat) :
    Option (List Int × List BCEvent) :=
  match hid : readF64 bytes offset with
  | none => none
  | some id =>
      let hasRes := resolvers.contains id
      match hscan : scanBinaries hasRes bytes (offset + 8) with
      | Except.error _ => none
      | Except.ok (binaries, off, sentinel) =>
          let resolvers' := if hasRes then resolvers.erase id else resolvers
          let events := if hasRes then [BCEvent.timeoutCleared id, BCEvent.fired id binaries] else []
          if hsent : sentinel then
            match processBinaryContentPacket resolvers' bytes off with
            | none => none
            | some (resFinal, evs) => some (resFinal, events ++ evs)
          else some (resolvers', events)
termination_by bytes.length - offset
decreasing_by
  have := scanBinaries_sentinel_bound hasRes bytes (offset + 8) binaries off (by rw [hscan, hsent])
  omega

/-- `Transport._createBinaryContentPacket` (array branch) — byte 0 is the
`BinaryContent` packet type (5), bytes 1–8 the float64 reference id,
followed by each blob as `(uint32 length, bytes)`. -/
def createBinaryContentPacket (refId : Int) (content : List Blob) : List Nat :=
  5 :: writeF64 refId ++ (content.flatMap fun b => writeU32 b.length ++ b)

/-! ## Transport state, bad connection, and the inbound dispatcher -/

/-- `BadConnectionError(type, msg?)` — carries the disconnect reason. -/
structure BadConnectionError where
  type : String
  msg : Option String
deriving Repr, DecidableEq

/-- The transport state touched by `emitBadConnection` and
`_processJsonActionPacket`.  Maps are modelled by the lists of their keys
(callbacks, timers and stream objects live behind them and are observed
through events); counters are the id counters that survive a bad
connection. -/
structure TransportState where
  openFlag : Bool := true
  batchTimerActive : Bool := false
  badConnectionStamp : Int := MIN_SAFE_INTEGER
  binaryContentResolver : List Int := []
  invokeResponsePromises : List Int := []
  activeReadStreams : List Int := []
  activeWriteStreams : List Int := []
  cid : Int := 0
  binaryContentPacketId : Int := 0
  ids : StreamIdState := {}
deriving Repr, DecidableEq

/-- Observable effects of the transport on its collaborators (pending
promises, resolvers, streams, the listeners).  Callback-style effects
record the `badConnectionStamp` visible to the callback when it runs. -/
inductive TEvent where
  | clearBatchTime
  | rejectResolver (id : Int) (err : BadConnectionError) (stampSeen : Int)
  | rejectInvoke (callId : Int) (err : BadConnectionError) (stampSeen : Int)
  | streamBadConnection (id : Int) (isReadStream : Bool) (stampSeen : Int)
  | clearInvokeTimeout (callId : Int)
  | invalidMessage (msg : String)
  | processData (callId : Option Int)
  | resolveInvoke (callId : Int)
  | rejectInvokeHydrated (callId : Int)
  | streamOpen (id : Int) (bufferSize : Int)
  | streamAddDataPermission (id : Int) (size : Int)
  | streamReadStreamClose (id : Int) (closeCode : Int)
  | streamWriteStreamClose (id : Int) (closeCode : Int)
  | streamPushChunk (id : Int)
  | streamEnd (id : Int)
deriving Repr, DecidableEq

/-- `Transport._generateNewBadConnectionStamp`. -/
def generateNewBadConnectionStamp (stamp : Int) : Int :=
  if stamp > MAX_SAFE_INTEGER then MIN_SAFE_INTEGER else stamp + 1

/-- `Transport.emitBadConnection(type, msg?)` — in source order: marks the
transport closed, clears the batch timer, generates a new bad-connection
stamp, then rejects every binary-content resolver, rejects every pending
invoke-response promise, signals bad connection to every active read and
write stream, and empties both stream maps.  Every callback effect records
the stamp visible when it runs (the assignment precedes all callbacks). -/
def emitBadConnection (type : String) (msg : Option String) (st : TransportState) :
    TransportState × List TEvent :=
  let err : BadConnectionError := ⟨type, msg⟩
  let newStamp := generateNewBadConnectionStamp st.badConnectionStamp
  let resolverEvents := st.binaryContentResolver.map
    (fun id => TEvent.rejectResolver id err newStamp)
  let invokeEvents := st.invokeResponsePromises.map
    (fun id => TEvent.rejectInvoke id err newStamp)
  let streamEvents :=
    st.activeReadStreams.map (fun id => TEvent.streamBadConnection id true newStamp) ++
    st.activeWriteStreams.map (fun id => TEvent.streamBadConnection id false newStamp)
  ({ st with
      openFlag := false
      batchTimerActive := false
      badConnectionStamp := newStamp
      binaryContentResolver := []
      invokeResponsePromises := []
      activeReadStreams := []
      activeWriteStreams := [] },
    TEvent.clearBatchTime :: resolverEvents ++ invokeEvents ++ streamEvents)

/-- Does a `TEvent` stand for a reject or close callback run by
`emitBadConnection`, and if so which stamp did the callback observe? -/
def callbackStamp : TEvent → Option Int
  | TEvent.rejectResolver _ _ s => some s
  | TEvent.rejectInvoke _ _ s => some s
  | TEvent.streamBadConnection _ _ s => some s
  | _ => none

/-- An inbound JSON action packet (`ActionPacket` of `Protocol.ts`).
Fields that `_processJsonActionPacket` type-checks at runtime are carried
as parsed JSON values. -/
inductive InPacket where
  | transmit (receiver : JVal) (dataType : Int) (data : JVal) (meta : JVal)
  | invoke (procedure : JVal) (callId : JVal) (dataType : Int) (data : JVal) (meta : JVal)
  | invokeDataResp (callId : Int) (dataType : Int) (data : JVal) (meta : JVal)
  | invokeErrResp (callId : Int) (rawErr : JVal)
  | streamAccept (streamId : Int) (bufferSize : JVal)
  | streamDataPermission (streamId : Int) (size : JVal)
  | readStreamClose (streamId : Int) (closeCode : Option JVal)
  | writeStreamClose (streamId : Int) (closeCode : JVal)
  | streamChunk (streamId : Int) (dataType : JVal) (data : JVal) (meta : JVal)
  | streamEnd (streamId : Int) (dataType : Option JVal) (data : JVal) (meta : JVal)
  | unknown

/-- Modelled from the spec: `StreamCloseCode.End` (the stream enum files are
missing from the sources); the spec fixes the reader-close default code to
`End` / 200. -/
def STREAM_CLOSE_CODE_END : Int := 200

/-- `Transport._processJsonActionPacket` and the per-type handlers it
dispatches to (`_rejectInvoke`, `_processStreamAccept`,
`_processStreamDataPermission`, `_processReadStreamClose`,
`_processJsonWriteStreamClose`, `_processJsonStreamChunk`,
`_processJsonStreamEnd`).  Calls into `_processData` and into stream
objects are recorded as events; a thrown `Error` (caught by `emitMessage`
and routed to `onInvalidMessage` there) is an `Except.error`. -/
def processJsonActionPacket (st : TransportState) :
    InPacket → Except String (TransportState × List TEvent)
  | InPacket.transmit receiver _ _ _ =>
      match receiver with
      | JVal.str _ => Except.ok (st, [TEvent.processData none])
      | _ => Except.ok (st, [TEvent.invalidMessage "Receiver is not a string."])
  | InPacket.invoke procedure callId _ _ _ =>
      match procedure with
      | JVal.str _ =>
          match callId with
          | JVal.num cid => Except.ok (st, [TEvent.processData (some cid)])
          | _ => Except.ok (st, [TEvent.invalidMessage "CallId is not a number."])
      | _ => Except.ok (st, [TEvent.invalidMessage "Receiver is not a string."])
  | InPacket.invokeDataResp callId _ _ _ =>
      if st.invokeResponsePromises.contains callId then
        Except.ok
          ({ st with invokeResponsePromises := st.invokeResponsePromises.erase callId },
            [TEvent.clearInvokeTimeout callId, TEvent.resolveInvoke callId])
      else Except.ok (st, [])
  | InPacket.invokeErrResp callId _ =>
      if st.invokeResponsePromises.contains callId then
        Except.ok
          ({ st with invokeResponsePromises := st.invokeResponsePromises.erase callId },
            [TEvent.clearInvokeTimeout callId, TEvent.rejectInvokeHydrated callId])
      else Except.ok (st, [])
  | InPacket.streamAccept streamId bufferSize =>
      match bufferSize with
      | JVal.num n =>
          if st.activeWriteStreams.contains streamId then
            Except.ok (st, [TEvent.streamOpen streamId n])
          else Except.ok (st, [])
      | _ => Except.error "Invalid buffer size data type to accept a stream."
  | InPacket.streamDataPermission streamId size =>
      match size with
      | JVal.num n =>
          if st.activeWriteStreams.contains streamId then
            Except.ok (st, [TEvent.streamAddDataPermission streamId n])
          else Except.ok (st, [])
      | _ => Except.error "Invalid stream data permission size data type."
  | InPacket.readStreamClose streamId closeCode =>
      match closeCode with
      | none =>
          if st.activeWriteStreams.contains streamId then
            Except.ok (st, [TEvent.streamReadStreamClose streamId STREAM_CLOSE_CODE_END])
          else Except.ok (st, [])
      | some (JVal.num n) =>
          if st.activeWriteStreams.contains streamId then
            Except.ok (st, [TEvent.streamReadStreamClose streamId n])
          else Except.ok (st, [])
      | some _ => Except.error "Invalid close code data type to close a stream."
  | InPacket.writeStreamClose streamId closeCode =>
      match closeCode with
      | JVal.num n =>
          if st.activeReadStreams.contains streamId then
            Except.ok (st, [TEvent.streamWriteStreamClose streamId n])
          else Except.ok (st, [])
      | _ => Except.error "Invalid close code data type to close a stream."
  | InPacket.streamChunk streamId _ _ _ =>
      if st.activeReadStreams.contains streamId then
        Except.ok (st, [TEvent.streamPushChunk streamId])
      else Except.ok (st, [])
  | InPacket.streamEnd streamId dataType _ _ =>
      if st.activeReadStreams.contains streamId then
        match dataType with
        | some (JVal.num _) =>
            Except.ok (st, [TEvent.streamPushChunk streamId, TEvent.streamEnd streamId])
        | _ => Except.ok (st, [TEvent.streamEnd streamId])
      else Except.ok (st, [])
  | InPacket.unknown => Except.ok (st, [TEvent.invalidMessage "Unknown packet type."])

/-- Is the packet one of the id-routed kinds of claim C10
(a response or stream packet) whose well-typed id is not present in the
corresponding map of the transport? -/
def unroutablePacket (st : TransportState) : InPacket → Bool
  | InPacket.invokeDataResp callId _ _ _ => !st.invokeResponsePromises.contains callId
  | InPacket.invokeErrResp callId _ => !st.invokeResponsePromises.contains callId
  | InPacket.streamAccept streamId bufferSize =>
      (match bufferSize with | JVal.num _ => true | _ => false) &&
        !st.activeWriteStreams.contains streamId
  | InPacket.streamDataPermission streamId size =>
      (match size with | JVal.num _ => true | _ => false) &&
        !st.activeWriteStreams.contains streamId
  | InPacket.readStreamClose streamId closeCode =>
      (match closeCode with
        | none => true
        | some (JVal.num _) => true
        | some _ => false) &&
        !st.activeWriteStreams.contains streamId
  | InPacket.writeStreamClose streamId closeCode =>
      (match closeCode with | JVal.num _ => true | _ => false) &&
        !st.activeReadStreams.contains streamId
  | InPacket.streamChunk streamId _ _ _ => !st.activeReadStreams.contains streamId
  | InPacket.streamEnd streamId _ _ _ => !st.activeReadStreams.contains streamId
  | _ => false

/-! ## Sending stream chunks (`Transport._sendStreamChunk`) -/

/-- The `DataType` enum values a sent stream-chunk head can carry; the
claims only rely on distinguishing the tags. -/
inductive ChunkDataType where
  | json
  | stream
  | mixedJSON
  | binary
deriving Repr, DecidableEq

/-- The head of a sent `StreamChunk`/`StreamEnd` packet as assembled by
`_sendStreamChunk`: the end flag, the `streamId` written into the header
field, the data type, and the value carried in the data slot. -/
structure SentChunkHead where
  isEnd : Bool
  headerStreamId : Int
  dataType : ChunkDataType
  payload : Option UVal

/-- `Transport._sendStreamChunk` restricted to the branch of claim C4:
`chunksCanContainStreams` is enabled and the chunk data is itself a
`WriteStream`.  The source shadows the enclosing `streamId` parameter with
the freshly allocated inner stream id and then writes that local into both
the header field and the data slot of the emitted packet. -/
def sendStreamChunkStreamBranch (outerStreamId : Int) (dataBinary : Bool) (end_ : Bool)
    (ids : StreamIdState) : SentChunkHead × StreamIdState :=
  let r := getNewStreamId dataBinary ids
  let streamId := r.1
  ({ isEnd := end_
     headerStreamId := streamId
     dataType := ChunkDataType.stream
     payload := some (UVal.num streamId) }, r.2)

/-! ## Invoke preparation and lazy timer arming (`Transport.prepareInvoke`)

`prepareInvoke` wires three closures: `pack._afterSend`, `setResponse`
(installs the resolve/reject handlers in `_invokeResponsePromises`) and
`setResponseTimeout` (arms the response timer if the handlers are
installed and no timer exists yet).  Which closure runs when depends on
the payload shape.  We embed the wiring as a small event semantics: the
environment delivers `afterSend` (the package was sent) and
`streamClosed i` (the `closed` promise of the i-th embedded stream
resolved) in an arbitrary order, and the model applies exactly the
reactions the source installs for the given payload shape — including the
`Promise.all([sent, …closed]).then(setResponseTimeout)` continuation,
which fires once the send and every embedded stream's close have all
happened. -/

/-- The payload shapes `prepareInvoke` distinguishes, in source order:
no complex types (plain JSON), a `WriteStream` payload, an `ArrayBuffer`
payload, and a mixed payload whose encode walk collected `n` streams. -/
inductive InvokePayloadKind where
  | plainJSON
  | singleStream
  | binary
  | mixed (streamCount : Nat)

/-- How many embedded streams the invoke payload carries. -/
def embeddedStreams : InvokePayloadKind → Nat
  | InvokePayloadKind.singleStream => 1
  | InvokePayloadKind.mixed n => n
  | _ => 0

/-- The registry-visible state of one prepared invoke: whether the
resolve/reject handlers sit in `_invokeResponsePromises`, whether the
response timer is armed, whether the `sent` promise resolved, and which
embedded streams have closed. -/
structure InvokeFlow where
  handlersInstalled : Bool := false
  timerArmed : Bool := false
  sentResolved : Bool := false
  closedResolved : Nat → Bool := fun _ => false

/-- One delivery of the environment: the package finished sending, or an
embedded stream's `closed` promise resolved. -/
inductive FlowEvent where
  | afterSend
  | streamClosed (i : Nat)
deriving Repr, DecidableEq

/-- `setResponseTimeout` of `prepareInvoke` — arms the timer only when the
handlers are installed and no timer exists yet. -/
def setResponseTimeoutModel (f : InvokeFlow) : InvokeFlow :=
  if f.handlersInstalled && !f.timerArmed then { f with timerArmed := true } else f

/-- Has `Promise.all([sent, …streams.closed])` resolved? -/
def allTransmitted (k : InvokePayloadKind) (f : InvokeFlow) : Bool :=
  f.sentResolved && decide (∀ i < embeddedStreams k, f.closedResolved i = true)

/-- The `.then(setResponseTimeout)` continuation of the stream branches:
runs `setResponseTimeout` once the send and all embedded closes are in. -/
def checkTransmitDone (k : InvokePayloadKind) (f : InvokeFlow) : InvokeFlow :=
  if allTransmitted k f then setResponseTimeoutModel f else f

/-- One step of the `prepareInvoke` wiring for payload shape `k`:
`afterSend` runs the `pack._afterSend` the source installs for that shape
(plain JSON installs the handlers and arms the timer directly; binary and
stream-free mixed install the handlers and call `setResponseTimeout`;
the stream shapes install the handlers, resolve `sent`, and leave arming
to the `Promise.all` continuation); `streamClosed i` resolves the i-th
embedded close and re-checks that continuation. -/
def flowStep (k : InvokePayloadKind) (f : InvokeFlow) : FlowEvent → InvokeFlow
  | FlowEvent.afterSend =>
      match k with
      | InvokePayloadKind.plainJSON =>
          { f with handlersInstalled := true, timerArmed := true, sentResolved := true }
      | InvokePayloadKind.binary =>
          setResponseTimeoutModel { f with handlersInstalled := true, sentResolved := true }
      | InvokePayloadKind.singleStream =>
          checkTransmitDone k { f with handlersInstalled := true, sentResolved := true }
      | InvokePayloadKind.mixed 0 =>
          setResponseTimeoutModel { f with handlersInstalled := true, sentResolved := true }
      | InvokePayloadKind.mixed (_ + 1) =>
          checkTransmitDone k { f with handlersInstalled := true, sentResolved := true }
  | FlowEvent.streamClosed i =>
      if i < embeddedStreams k then
        checkTransmitDone k
          { f with closedResolved := fun j => if j = i then true else f.closedResolved j }
      else f

/-- Replaying a whole delivery order from the freshly prepared invoke. -/
def runFlow (k : InvokePayloadKind) (trace : List FlowEvent) : InvokeFlow :=
  trace.foldl (flowStep k) {}

/-! ## Listener error routing (`Transport.emitMessage` and handlers)

A tiny embedding of the JavaScript control flow: a computation appends the
callbacks it runs to a log and reports whether it threw.  `tryCatch`
mirrors `try { body } catch { handler }`. -/

/-- The externally supplied callbacks of a transport. -/
inductive HandlerCall where
  | onPing
  | onPong
  | onTransmit
  | onInvoke
  | onListenerError
  | onInvalidMessage
deriving Repr, DecidableEq

/-- A computation: extends the call log, reports whether it threw. -/
def HComp := List HandlerCall → List HandlerCall × Bool

/-- Calling one listener with a fixed throw behavior. -/
def hcall (c : HandlerCall) (throws : Bool) : HComp :=
  fun log => (log ++ [c], throws)

/-- `try { body } catch (err) { handler }`. -/
def tryCatch (body handler : HComp) : HComp :=
  fun log =>
    let r := body log
    if r.2 then handler r.1 else (r.1, false)

/-- An empty statement (the body of a swallowing `catch`). -/
def hskip : HComp := fun log => (log, false)

/-- `Transport._onListenerError` — calls `onListenerError` and swallows
anything it throws. -/
def onListenerErrorWrapped (lerrThrows : Bool) : HComp :=
  tryCatch (hcall HandlerCall.onListenerError lerrThrows) hskip

/-- The `emitMessage` path for a PING frame: the outer
`try … catch (e) { onInvalidMessage(e) }` of `emitMessage` wrapping
`try { onPing() } catch (err) { onListenerError(err) }` — note the inner
catch calls `onListenerError` directly, not `_onListenerError`. -/
def emitMessagePingPath (pingThrows lerrThrows : Bool) : HComp :=
  tryCatch
    (tryCatch (hcall HandlerCall.onPing pingThrows) (hcall HandlerCall.onListenerError lerrThrows))
    (hcall HandlerCall.onInvalidMessage false)

/-- The `emitMessage` path for a PONG frame (same shape as PING). -/
def emitMessagePongPath (pongThrows lerrThrows : Bool) : HComp :=
  tryCatch
    (tryCatch (hcall HandlerCall.onPong pongThrows) (hcall HandlerCall.onListenerError lerrThrows))
    (hcall HandlerCall.onInvalidMessage false)

/-- The `emitMessage` path delivering a transmit: `_processTransmit` wraps
`onTransmit` in `try … catch (err) { _onListenerError(err) }`, inside the
outer catch of `emitMessage`. -/
def emitMessageTransmitPath (transmitThrows lerrThrows : Bool) : HComp :=
  tryCatch
    (tryCatch (hcall HandlerCall.onTransmit transmitThrows) (onListenerErrorWrapped lerrThrows))
    (hcall HandlerCall.onInvalidMessage false)

/-- The `emitMessage` path delivering an invoke: `_processInvoke` wraps
`onInvoke` in `try … catch (err) { _onListenerError(err) }`, inside the
outer catch of `emitMessage`. -/
def emitMessageInvokePath (invokeThrows lerrThrows : Bool) : HComp :=
  tryCatch
    (tryCatch (hcall HandlerCall.onInvoke invokeThrows) (onListenerErrorWrapped lerrThrows))
    (hcall HandlerCall.onInvalidMessage false)

/-! ## Single-shot invoke response callbacks (`Transport._processInvoke`)

`_processInvoke` captures `badConnectionStamp` at delivery, creates a
shared `called` flag, and hands the user two callbacks.  Each callback
first throws `InvalidActionError` when `called` is already set, then sets
`called`, then silently returns when the stamp has changed, and only then
sends the response.  A callback throw propagates out of the user's
`onInvoke` into `_processInvoke`'s catch, which reports it via
`_onListenerError` and ends processing (modelling a listener that does not
catch the error itself). -/

/-- Which of the two user callbacks is called. -/
inductive InvokeCbKind where
  | endCb
  | rejectCb
deriving Repr, DecidableEq

/-- One synchronous call of an invoke callback, with the
`badConnectionStamp` of the transport at the moment of the call. -/
structure CbInvocation where
  kind : InvokeCbKind
  stampNow : Int
deriving Repr, DecidableEq

/-- A response the transport actually sends for the invoke. -/
inductive InvokeResponse where
  | dataResp
  | errResp
deriving Repr, DecidableEq

/-- The wire response a callback kind produces. -/
def responseOf : InvokeCbKind → InvokeResponse
  | InvokeCbKind.endCb => InvokeResponse.dataResp
  | InvokeCbKind.rejectCb => InvokeResponse.errResp

/-- Runs a sequence of synchronous callback invocations against the
closure state of one delivered invoke: returns the responses sent, and
the `InvalidActionError` (if any) that escaped to `_onListenerError`. -/
def runInvokeCallbacks (stampDelivered : Int) : List CbInvocation → Bool →
    List InvokeResponse × Option String
  | [], _ => ([], none)
  | c :: rest, called =>
      if called then ([], some "InvalidActionError")
      else
        let sendNow := if c.stampNow = stampDelivered then [responseOf c.kind] else []
        let r := runInvokeCallbacks stampDelivered rest true
        (sendNow ++ r.1, r.2)

/-! ## Lemmas: key escaping -/

theorem isPlaceholderSeqChars_cons_underscore (rest : List Char)
    (h : isPlaceholderSeqChars rest = true) :
    isPlaceholderSeqChars ('_' :: rest) = true := by
  simp only [isPlaceholderSeqChars, List.takeWhile] at *
  simp only [show ('_' == '_') = true from rfl, List.length_cons, List.drop_succ_cons] at *
  rcases Bool.and_eq_true_iff.mp h with ⟨-, h2⟩
  exact Bool.and_eq_true_iff.mpr ⟨by simp, h2⟩

theorem unescapeChars_escapeChars (cs : List Char) :
    unescapeChars (escapeChars cs) = cs := by
  by_cases h : isPlaceholderSeqChars cs
  · simp [escapeChars, h, unescapeChars]
  · simp only [escapeChars, h, if_false, Bool.false_eq_true]
    rw [unescapeChars.eq_def]
    split
    · rename_i rest
      by_cases hr : isPlaceholderSeqChars rest
      · exact absurd (isPlaceholderSeqChars_cons_underscore rest hr) (by simpa using h)
      · simp [hr]
    · rfl

theorem unescape_escape (s : String) :
    unescapePlaceholderSequence (escapePlaceholderSequence s) = s := by
  simp only [unescapePlaceholderSequence, escapePlaceholderSequence]
  have : (String.mk (escapeChars s.toList)).toList = escapeChars s.toList := rfl
  rw [this, unescapeChars_escapeChars]
  cases s; rfl

theorem escapeChars_ne_marker (cs : List Char) :
    escapeChars cs ≠ ['_', 'b'] ∧ escapeChars cs ≠ ['_', 's'] := by
  by_cases h : isPlaceholderSeqChars cs
  · simp only [escapeChars, h, if_true]
    constructor
    · intro he
      injection he with h1 h2
      subst h2
      simp [isPlaceholderSeqChars, List.takeWhile] at h
    · intro he
      injection he with h1 h2
      subst h2
      simp [isPlaceholderSeqChars, List.takeWhile] at h
  · simp only [escapeChars, h, if_false, Bool.false_eq_true]
    constructor
    · intro he; subst he; simp [isPlaceholderSeqChars, List.takeWhile] at h
    · intro he; subst he; simp [isPlaceholderSeqChars, List.takeWhile] at h

theorem escape_ne_b (s : String) : escapePlaceholderSequence s ≠ "_b" := by
  intro h
  have : escapeChars s.toList = ['_', 'b'] := by
    have := congrArg String.toList h
    simpa using this
  exact (escapeChars_ne_marker s.toList).1 this

theorem escape_ne_s (s : String) : escapePlaceholderSequence s ≠ "_s" := by
  intro h
  have : escapeChars s.toList = ['_', 's'] := by
    have := congrArg String.toList h
    simpa using this
  exact (escapeChars_ne_marker s.toList).2 this

/-! ## Lemmas and claim C9: stream-id allocation -/

/-- The reachable region of the two stream-id counters. -/
def StreamIdInv (s : StreamIdState) : Prop :=
  1 ≤ s.objId ∧ s.objId ≤ MAX_SAFE_INTEGER + 1 ∧
    MIN_SAFE_INTEGER - 1 ≤ s.binId ∧ s.binId ≤ -1

theorem getNewStreamId_step (b : Bool) (s : StreamIdState) (h : StreamIdInv s) :
    StreamIdInv (getNewStreamId b s).2 ∧
    (b = true → MIN_SAFE_INTEGER ≤ (getNewStreamId b s).1 ∧ (getNewStreamId b s).1 ≤ -1) ∧
    (b = false → 1 ≤ (getNewStreamId b s).1 ∧ (getNewStreamId b s).1 ≤ MAX_SAFE_INTEGER) := by
  obtain ⟨h1, h2, h3, h4⟩ := h
  simp only [MAX_SAFE_INTEGER, MIN_SAFE_INTEGER] at h1 h2 h3 h4
  cases b <;>
    simp [getNewStreamId, StreamIdInv, MAX_SAFE_INTEGER, MIN_SAFE_INTEGER] <;>
    split_ifs <;>
    omega

theorem allocStreamIds_invariant (seq : List Bool) :
    ∀ s : StreamIdState, StreamIdInv s →
    (allocStreamIds seq s).1.length = seq.length ∧
    StreamIdInv (allocStreamIds seq s).2 ∧
    ∀ p ∈ seq.zip (allocStreamIds seq s).1,
      (p.1 = true → MIN_SAFE_INTEGER ≤ p.2 ∧ p.2 ≤ -1) ∧
      (p.1 = false → 1 ≤ p.2 ∧ p.2 ≤ MAX_SAFE_INTEGER) := by
  induction seq with
  | nil => intro s hs; exact ⟨rfl, hs, by simp⟩
  | cons b rest ih =>
      intro s hs
      obtain ⟨hinv, hbt, hbf⟩ := getNewStreamId_step b s hs
      obtain ⟨hlen, hinv2, hall⟩ := ih (getNewStreamId b s).2 hinv
      refine ⟨by simpa [allocStreamIds] using hlen, by simpa [allocStreamIds] using hinv2, ?_⟩
      intro p hp
      simp only [allocStreamIds, List.zip_cons_cons, List.mem_cons] at hp
      rcases hp with hp | hp
      · subst hp; exact ⟨hbt, hbf⟩
      · exact hall p hp

/-- C9: every id `_getNewStreamId` allocates for an object stream is
positive (in `[1, MAX_SAFE_INTEGER]`, starting at 1 and incrementing,
wrapping back to 1 at the safe-integer bound), every id allocated for a
binary stream is negative (in `[MIN_SAFE_INTEGER, -1]`, starting at -1 and
decrementing, wrapping back to -1 at the safe-integer floor); consequently
an object-stream id and a binary-stream id of one allocation sequence are
never equal, and the sign of an id determines the stream kind. -/
theorem getNewStreamId_sign_spec :
    (∀ seq : List Bool, (allocStreamIds seq {}).1.length = seq.length) ∧
    (∀ seq : List Bool, ∀ p ∈ seq.zip (allocStreamIds seq {}).1,
        (p.1 = true → MIN_SAFE_INTEGER ≤ p.2 ∧ p.2 ≤ -1) ∧
        (p.1 = false → 1 ≤ p.2 ∧ p.2 ≤ MAX_SAFE_INTEGER)) ∧
    (∀ seq : List Bool, ∀ p ∈ seq.zip (allocStreamIds seq {}).1,
        ∀ q ∈ seq.zip (allocStreamIds seq {}).1,
          p.1 = true → q.1 = false → p.2 ≠ q.2) ∧
    (allocStreamIds [false] {}).1 = [1] ∧
    (allocStreamIds [true] {}).1 = [-1] ∧
    (∀ s : StreamIdState, StreamIdInv s →
      ((getNewStreamId false (getNewStreamId false s).2).1 =
          if (getNewStreamId false s).1 = MAX_SAFE_INTEGER then 1
          else (getNewStreamId false s).1 + 1) ∧
      ((getNewStreamId true (getNewStreamId true s).2).1 =
          if (getNewStreamId true s).1 = MIN_SAFE_INTEGER then -1
          else (getNewStreamId true s).1 - 1)) := by
  have hinv0 : StreamIdInv {} := by
    refine ⟨?_, ?_, ?_, ?_⟩ <;> simp [MAX_SAFE_INTEGER, MIN_SAFE_INTEGER]
  refine ⟨?_, ?_, ?_, ?_, ?_, ?_⟩
  · intro seq; exact (allocStreamIds_invariant seq {} hinv0).1
  · intro seq; exact (allocStreamIds_invariant seq {} hinv0).2.2
  · intro seq p hp q hq hpt hqf
    have h1 := ((allocStreamIds_invariant seq {} hinv0).2.2 p hp).1 hpt
    have h2 := ((allocStreamIds_invariant seq {} hinv0).2.2 q hq).2 hqf
    omega
  · rfl
  · rfl
  · intro s hs
    obtain ⟨h1, h2, h3, h4⟩ := hs
    simp only [MAX_SAFE_INTEGER, MIN_SAFE_INTEGER] at h1 h2 h3 h4
    constructor
    · simp [getNewStreamId, MAX_SAFE_INTEGER, MIN_SAFE_INTEGER]
      split_ifs <;> omega
    · simp [getNewStreamId, MAX_SAFE_INTEGER, MIN_SAFE_INTEGER]
      split_ifs <;> omega

/-- C9 witness: concrete allocation run `[object, binary, object]` from the
initial counters. -/
theorem getNewStreamId_sign_spec_witness :
    (allocStreamIds [false, true, false] {}).1 = [1, -1, 2] ∧
    (allocStreamIds [false] {}).1 = [1] := by
  refine ⟨?_, getNewStreamId_sign_spec.2.2.2.1⟩
  rfl

/-! ## Claim C4: stream chunks that contain streams -/

/-- C4: in the `chunksCanContainStreams` branch of `_sendStreamChunk` the
source shadows the enclosing stream id with the freshly allocated inner
stream id, so the emitted packet's header `streamId` field carries the
inner id instead of the outer one — evaluated at an outer stream with id 1
whose chunk is a fresh object `WriteStream` (inner id 2): the header holds
2, not 1, and the data slot holds 2 as well. -/
theorem sendStreamChunk_header_uses_inner_id :
    (sendStreamChunkStreamBranch 1 false false { objId := 2, binId := -1 }).1.headerStreamId
        = 2 ∧
    (sendStreamChunkStreamBranch 1 false false { objId := 2, binId := -1 }).1.payload
        = some (UVal.num 2) ∧
    (sendStreamChunkStreamBranch 1 false false { objId := 2, binId := -1 }).1.headerStreamId
        ≠ 1 := by
  refine ⟨?_, ?_, ?_⟩ <;> simp [sendStreamChunkStreamBranch, getNewStreamId, MAX_SAFE_INTEGER]

/-! ## Claim C3: emitBadConnection -/

/-- C3: `emitBadConnection(type, msg?)` sets `open` to `false`, clears the
batch timer, and changes `badConnectionStamp` to a new value before any
reject or close callback runs (every callback effect observes the new
stamp); it rejects every pending invoke-response promise and every
outstanding binary-content resolver with a `BadConnectionError` carrying
the disconnect reason, signals bad connection to every active read and
write stream, empties both stream maps (and the resolver and
invoke-promise maps), while the identifier counters keep their values. -/
theorem emitBadConnection_spec (type : String) (msg : Option String) (st : TransportState) :
    (emitBadConnection type msg st).1.openFlag = false ∧
    (emitBadConnection type msg st).1.batchTimerActive = false ∧
    (emitBadConnection type msg st).1.badConnectionStamp ≠ st.badConnectionStamp ∧
    (emitBadConnection type msg st).1.binaryContentResolver = [] ∧
    (emitBadConnection type msg st).1.invokeResponsePromises = [] ∧
    (emitBadConnection type msg st).1.activeReadStreams = [] ∧
    (emitBadConnection type msg st).1.activeWriteStreams = [] ∧
    (emitBadConnection type msg st).1.cid = st.cid ∧
    (emitBadConnection type msg st).1.binaryContentPacketId = st.binaryContentPacketId ∧
    (emitBadConnection type msg st).1.ids = st.ids ∧
    (∀ e ∈ (emitBadConnection type msg st).2,
        callbackStamp e = none ∨
          callbackStamp e = some (emitBadConnection type msg st).1.badConnectionStamp) ∧
    TEvent.clearBatchTime ∈ (emitBadConnection type msg st).2 ∧
    (∀ id ∈ st.invokeResponsePromises,
        TEvent.rejectInvoke id ⟨type, msg⟩ (emitBadConnection type msg st).1.badConnectionStamp
          ∈ (emitBadConnection type msg st).2) ∧
    (∀ id ∈ st.binaryContentResolver,
        TEvent.rejectResolver id ⟨type, msg⟩ (emitBadConnection type msg st).1.badConnectionStamp
          ∈ (emitBadConnection type msg st).2) ∧
    (∀ id ∈ st.activeReadStreams,
        TEvent.streamBadConnection id true (emitBadConnection type msg st).1.badConnectionStamp
          ∈ (emitBadConnection type msg st).2) ∧
    (∀ id ∈ st.activeWriteStreams,
        TEvent.streamBadConnection id false (emitBadConnection type msg st).1.badConnectionStamp
          ∈ (emitBadConnection type msg st).2) := by
  have hstamp : generateNewBadConnectionStamp st.badConnectionStamp ≠ st.badConnectionStamp := by
    simp only [generateNewBadConnectionStamp, MAX_SAFE_INTEGER, MIN_SAFE_INTEGER]
    split_ifs <;> omega
  refine ⟨rfl, rfl, hstamp, rfl, rfl, rfl, rfl, rfl, rfl, rfl, ?_, ?_, ?_, ?_, ?_, ?_⟩
  · intro e he
    rcases List.mem_cons.mp he with rfl | he
    · exact Or.inl rfl
    rcases List.mem_append.mp he with he | he
    · rcases List.mem_append.mp he with he | he
      · obtain ⟨a, _, rfl⟩ := List.mem_map.mp he
        exact Or.inr rfl
      · obtain ⟨a, _, rfl⟩ := List.mem_map.mp he
        exact Or.inr rfl
    · rcases List.mem_append.mp he with he | he
      · obtain ⟨a, _, rfl⟩ := List.mem_map.mp he
        exact Or.inr rfl
      · obtain ⟨a, _, rfl⟩ := List.mem_map.mp he
        exact Or.inr rfl
  · exact List.mem_cons_self _ _
  · intro id hid
    exact List.mem_cons_of_mem _ (List.mem_append_left _
      (List.mem_append_right _ (List.mem_map_of_mem _ hid)))
  · intro id hid
    exact List.mem_cons_of_mem _ (List.mem_append_left _
      (List.mem_append_left _ (List.mem_map_of_mem _ hid)))
  · intro id hid
    exact List.mem_cons_of_mem _ (List.mem_append_right _
      (List.mem_append_left _ (List.mem_map_of_mem _ hid)))
  · intro id hid
    exact List.mem_cons_of_mem _ (List.mem_append_right _
      (List.mem_append_right _ (List.mem_map_of_mem _ hid)))

/-- C3 witness: a concrete transport with one pending invoke — after
`emitBadConnection` the transport is closed and the pending invoke is
rejected with the new stamp visible. -/
theorem emitBadConnection_spec_witness :
    (emitBadConnection "connectionLost" none
        { invokeResponsePromises := [3], cid := 4 : TransportState }).1.openFlag = false ∧
    TEvent.rejectInvoke 3 ⟨"connectionLost", none⟩
        (emitBadConnection "connectionLost" none
          { invokeResponsePromises := [3], cid := 4 : TransportState }).1.badConnectionStamp
      ∈ (emitBadConnection "connectionLost" none
          { invokeResponsePromises := [3], cid := 4 : TransportState }).2 :=
  ⟨(emitBadConnection_spec "connectionLost" none
      { invokeResponsePromises := [3], cid := 4 }).1,
    (emitBadConnection_spec "connectionLost" none
      { invokeResponsePromises := [3], cid := 4 }).2.2.2.2.2.2.2.2.2.2.2.2.1 3 (by simp)⟩

/-! ## Claim C10: unknown-id packets are silent no-ops -/

/-- C10: processing an inbound `InvokeDataResp`, `InvokeErrResp`,
`StreamAccept`, `StreamDataPermission`, `ReadStreamClose`,
`WriteStreamClose`, `StreamChunk` or `StreamEnd` packet whose well-typed
`callId` / `streamId` has no entry in the corresponding map raises no
error, emits no event (in particular neither `onInvalidMessage` nor any
listener call), and leaves the transport state unchanged. -/
theorem unroutablePacket_silent_noop (st : TransportState) (p : InPacket)
    (h : unroutablePacket st p = true) :
    processJsonActionPacket st p = Except.ok (st, []) := by
  cases p with
  | transmit receiver dataType data meta => simp [unroutablePacket] at h
  | invoke procedure callId dataType data meta => simp [unroutablePacket] at h
  | invokeDataResp callId dataType data meta =>
      have h' : callId ∉ st.invokeResponsePromises := by
        simp only [unroutablePacket, Bool.not_eq_true'] at h
        simpa using h
      simp [processJsonActionPacket, h']
  | invokeErrResp callId rawErr =>
      have h' : callId ∉ st.invokeResponsePromises := by
        simp only [unroutablePacket, Bool.not_eq_true'] at h
        simpa using h
      simp [processJsonActionPacket, h']
  | streamAccept streamId bufferSize =>
      cases bufferSize with
      | num n =>
          have h' : streamId ∉ st.activeWriteStreams := by
            simp only [unroutablePacket, Bool.and_eq_true, Bool.not_eq_true'] at h
            simpa using h.2
          simp [processJsonActionPacket, h']
      | null => simp [unroutablePacket] at h
      | bool b => simp [unroutablePacket] at h
      | str s => simp [unroutablePacket] at h
      | arr l => simp [unroutablePacket] at h
      | obj l => simp [unroutablePacket] at h
  | streamDataPermission streamId size =>
      cases size with
      | num n =>
          have h' : streamId ∉ st.activeWriteStreams := by
            simp only [unroutablePacket, Bool.and_eq_true, Bool.not_eq_true'] at h
            simpa using h.2
          simp [processJsonActionPacket, h']
      | null => simp [unroutablePacket] at h
      | bool b => simp [unroutablePacket] at h
      | str s => simp [unroutablePacket] at h
      | arr l => simp [unroutablePacket] at h
      | obj l => simp [unroutablePacket] at h
  | readStreamClose streamId closeCode =>
      have hws : (match closeCode with
          | none => true
          | some (JVal.num _) => true
          | some _ => false) = true →
          streamId ∉ st.activeWriteStreams := by
        intro _
        simp only [unroutablePacket, Bool.and_eq_true, Bool.not_eq_true'] at h
        simpa using h.2
      match closeCode with
      | none => simp [processJsonActionPacket, hws rfl]
      | some (JVal.num n) => simp [processJsonActionPacket, hws rfl]
      | some JVal.null => simp [unroutablePacket] at h
      | some (JVal.bool _) => simp [unroutablePacket] at h
      | some (JVal.str _) => simp [unroutablePacket] at h
      | some (JVal.arr _) => simp [unroutablePacket] at h
      | some (JVal.obj _) => simp [unroutablePacket] at h
  | writeStreamClose streamId closeCode =>
      cases closeCode with
      | num n =>
          have h' : streamId ∉ st.activeReadStreams := by
            simp only [unroutablePacket, Bool.and_eq_true, Bool.not_eq_true'] at h
            simpa using h.2
          simp [processJsonActionPacket, h']
      | null => simp [unroutablePacket] at h
      | bool b => simp [unroutablePacket] at h
      | str s => simp [unroutablePacket] at h
      | arr l => simp [unroutablePacket] at h
      | obj l => simp [unroutablePacket] at h
  | streamChunk streamId dataType data meta =>
      have h' : streamId ∉ st.activeReadStreams := by
        simp only [unroutablePacket, Bool.not_eq_true'] at h
        simpa using h
      simp [processJsonActionPacket, h']
  | streamEnd streamId dataType data meta =>
      have h' : streamId ∉ st.activeReadStreams := by
        simp only [unroutablePacket, Bool.not_eq_true'] at h
        simpa using h
      simp [processJsonActionPacket, h']
  | unknown => simp [unroutablePacket] at h

/-- C10 witness: a `StreamAccept` for a stream id with no active write
stream on a transport with other live state is a silent no-op. -/
theorem unroutablePacket_silent_noop_witness :
    unroutablePacket { activeWriteStreams := [2], invokeResponsePromises := [7] }
        (InPacket.streamAccept 5 (JVal.num 1024)) = true ∧
    processJsonActionPacket { activeWriteStreams := [2], invokeResponsePromises := [7] }
        (InPacket.streamAccept 5 (JVal.num 1024))
      = Except.ok ({ activeWriteStreams := [2], invokeResponsePromises := [7] }, []) :=
  ⟨by simp [unroutablePacket],
    unroutablePacket_silent_noop { activeWriteStreams := [2], invokeResponsePromises := [7] }
      (InPacket.streamAccept 5 (JVal.num 1024)) (by simp [unroutablePacket])⟩

/-! ## Claim C7: single-shot invoke callbacks -/

/-- C7: the `end`/`reject` callbacks handed out by `_processInvoke` are
single-shot — only the first call can send a response, and it does so
exactly when `badConnectionStamp` still equals the value captured at
delivery (otherwise it is a silent no-op); any second call of either
callback raises an `InvalidActionError` that is reported via
`onListenerError`, and a lone first call reports nothing. -/
theorem processInvoke_callbacks_single_shot (stampDelivered : Int)
    (c : CbInvocation) (rest : List CbInvocation) :
    (runInvokeCallbacks stampDelivered (c :: rest) false).1
        = (if c.stampNow = stampDelivered then [responseOf c.kind] else []) ∧
    (runInvokeCallbacks stampDelivered (c :: rest) false).2
        = (if rest = [] then none else some "InvalidActionError") := by
  have htail : ∀ l : List CbInvocation,
      runInvokeCallbacks stampDelivered l true
        = ([], if l = [] then none else some "InvalidActionError") := by
    intro l
    cases l <;> simp [runInvokeCallbacks]
  constructor
  · by_cases hc : c.stampNow = stampDelivered <;>
      simp [runInvokeCallbacks, htail rest, hc]
  · simp [runInvokeCallbacks, htail rest]

/-- C7 witness: a first `end` call at the delivery stamp followed by a
second call — exactly one response is sent and the second call surfaces an
`InvalidActionError`. -/
theorem processInvoke_callbacks_single_shot_witness :
    (runInvokeCallbacks 5 [⟨InvokeCbKind.endCb, 5⟩, ⟨InvokeCbKind.rejectCb, 5⟩] false).1
        = [InvokeResponse.dataResp] ∧
    (runInvokeCallbacks 5 [⟨InvokeCbKind.endCb, 5⟩, ⟨InvokeCbKind.rejectCb, 5⟩] false).2
        = some "InvalidActionError" := by
  have h := processInvoke_callbacks_single_shot 5 ⟨InvokeCbKind.endCb, 5⟩
    [⟨InvokeCbKind.rejectCb, 5⟩]
  exact ⟨by rw [h.1]; rfl, by rw [h.2]; rfl⟩

/-! ## Claim C6: listener error routing (corrected) -/

/-- C6 counterexample: for the `onPing` hook the claim fails — when
`onPing` throws and `onListenerError` itself throws, the error is not
swallowed: `emitMessage`'s outer catch runs `onInvalidMessage`. -/
theorem listener_error_reaches_onInvalidMessage :
    (emitMessagePingPath true true []).1
        = [HandlerCall.onPing, HandlerCall.onListenerError, HandlerCall.onInvalidMessage] ∧
    HandlerCall.onInvalidMessage ∈ (emitMessagePingPath true true []).1 := by
  constructor
  · rfl
  · rw [show (emitMessagePingPath true true []).1
        = [HandlerCall.onPing, HandlerCall.onListenerError, HandlerCall.onInvalidMessage]
      from rfl]
    simp

/-- C6 amended: exceptions thrown by `onTransmit` or `onInvoke` are caught
and forwarded to `onListenerError`, whose own exceptions are swallowed (in
particular `onInvalidMessage` is never reached on those paths); exceptions
thrown by `onPing`/`onPong` are forwarded to `onListenerError` directly,
and when `onListenerError` then throws, the error is caught by
`emitMessage`'s outer handler and routed to `onInvalidMessage`; in every
case nothing propagates to the caller of `emitMessage`. -/
theorem listener_error_routing (tT iT pT poT lT : Bool) :
    ((emitMessageTransmitPath tT lT []).1
        = (if tT then [HandlerCall.onTransmit, HandlerCall.onListenerError]
           else [HandlerCall.onTransmit]) ∧
      (emitMessageTransmitPath tT lT []).2 = false) ∧
    ((emitMessageInvokePath iT lT []).1
        = (if iT then [HandlerCall.onInvoke, HandlerCall.onListenerError]
           else [HandlerCall.onInvoke]) ∧
      (emitMessageInvokePath iT lT []).2 = false) ∧
    ((emitMessagePingPath pT lT []).1
        = (if pT then
            (if lT then [HandlerCall.onPing, HandlerCall.onListenerError,
                HandlerCall.onInvalidMessage]
             else [HandlerCall.onPing, HandlerCall.onListenerError])
           else [HandlerCall.onPing]) ∧
      (emitMessagePingPath pT lT []).2 = false) ∧
    ((emitMessagePongPath poT lT []).1
        = (if poT then
            (if lT then [HandlerCall.onPong, HandlerCall.onListenerError,
                HandlerCall.onInvalidMessage]
             else [HandlerCall.onPong, HandlerCall.onListenerError])
           else [HandlerCall.onPong]) ∧
      (emitMessagePongPath poT lT []).2 = false) := by
  cases tT <;> cases iT <;> cases pT <;> cases poT <;> cases lT <;>
    exact ⟨⟨rfl, rfl⟩, ⟨rfl, rfl⟩, ⟨rfl, rfl⟩, ⟨rfl, rfl⟩⟩

/-! ## Claim C2: invoke response-timer lazy arming -/

/-- The registry-visible state of a prepared invoke after the events in
`seen` were delivered: handlers appear exactly after `_afterSend`, and the
timer is armed exactly when `_afterSend` has fired and every embedded
stream has closed. -/
def flowInvariant (k : InvokePayloadKind) (seen : List FlowEvent) (f : InvokeFlow) : Prop :=
  f.handlersInstalled = decide (FlowEvent.afterSend ∈ seen) ∧
  f.sentResolved = decide (FlowEvent.afterSend ∈ seen) ∧
  (∀ i : Nat, f.closedResolved i
      = decide (i < embeddedStreams k ∧ FlowEvent.streamClosed i ∈ seen)) ∧
  f.timerArmed = decide (FlowEvent.afterSend ∈ seen ∧
      ∀ i < embeddedStreams k, FlowEvent.streamClosed i ∈ seen)

theorem setResponseTimeoutModel_fields (f : InvokeFlow) :
    setResponseTimeoutModel f
      = { f with timerArmed := f.timerArmed || f.handlersInstalled } := by
  cases f with
  | mk hI tA sR cR =>
      cases hI <;> cases tA <;> simp [setResponseTimeoutModel]

theorem checkTransmitDone_fields (k : InvokePayloadKind) (f : InvokeFlow) :
    checkTransmitDone k f
      = { f with timerArmed := f.timerArmed || (allTransmitted k f && f.handlersInstalled) } := by
  unfold checkTransmitDone
  split_ifs with hA
  · rw [setResponseTimeoutModel_fields, hA]
    simp
  · simp only [Bool.not_eq_true] at hA
    rw [hA]
    simp

theorem flowStep_invariant (k : InvokePayloadKind) (seen : List FlowEvent) (f : InvokeFlow)
    (e : FlowEvent) (h : flowInvariant k seen f) :
    flowInvariant k (seen ++ [e]) (flowStep k f e) := by
  obtain ⟨hh, hs, hc, ht⟩ := h
  cases e with
  | afterSend =>
      have hmemc : ∀ i, (FlowEvent.streamClosed i ∈ seen ++ [FlowEvent.afterSend])
          ↔ FlowEvent.streamClosed i ∈ seen := by
        intro i; simp
      have hclosed : ∀ i, f.closedResolved i
          = decide (i < embeddedStreams k ∧
              FlowEvent.streamClosed i ∈ seen ++ [FlowEvent.afterSend]) := by
        intro i
        rw [hc i]
        simp [hmemc i]
      have htimer : ∀ fnew : InvokeFlow,
          fnew.timerArmed = (f.timerArmed || decide (∀ i < embeddedStreams k,
            f.closedResolved i = true)) →
          fnew.timerArmed = decide (FlowEvent.afterSend ∈ seen ++ [FlowEvent.afterSend] ∧
            ∀ i < embeddedStreams k,
              FlowEvent.streamClosed i ∈ seen ++ [FlowEvent.afterSend]) := by
        intro fnew hnew
        rw [hnew, ht]
        by_cases hC : ∀ i < embeddedStreams k, FlowEvent.streamClosed i ∈ seen
        · have h1 : (decide (∀ i < embeddedStreams k, f.closedResolved i = true)) = true := by
            simp only [decide_eq_true_eq]
            intro i hi
            rw [hc i]
            simp [hi, hC i hi]
          rw [h1]
          simp only [Bool.or_true]
          symm
          rw [decide_eq_true_eq]
          exact ⟨by simp, fun i hi => (hmemc i).mpr (hC i hi)⟩
        · have h1 : (decide (∀ i < embeddedStreams k, f.closedResolved i = true)) = false := by
            simp only [decide_eq_false_iff_not]
            intro hcon
            refine hC fun i hi => ?_
            have := hcon i hi
            rw [hc i] at this
            simpa [hi] using this
          rw [h1]
          have h2 : ¬ (∀ i < embeddedStreams k,
              FlowEvent.streamClosed i ∈ seen ++ [FlowEvent.afterSend]) := by
            intro hcon
            exact hC fun i hi => (hmemc i).mp (hcon i hi)
          simp [h2, hC]
      cases k with
      | plainJSON =>
          refine ⟨by simp [flowStep], by simp [flowStep], ?_, ?_⟩
          · intro i
            simpa [flowStep] using hclosed i
          · simp [flowStep, embeddedStreams]
      | binary =>
          rw [show flowStep InvokePayloadKind.binary f FlowEvent.afterSend
              = setResponseTimeoutModel
                  { f with handlersInstalled := true, sentResolved := true } from rfl,
            setResponseTimeoutModel_fields]
          refine ⟨by simp, by simp, ?_, ?_⟩
          · intro i
            simpa using hclosed i
          · simp [embeddedStreams]
      | singleStream =>
          rw [show flowStep InvokePayloadKind.singleStream f FlowEvent.afterSend
              = checkTransmitDone InvokePayloadKind.singleStream
                  { f with handlersInstalled := true, sentResolved := true } from rfl,
            checkTransmitDone_fields]
          refine ⟨by simp, by simp, fun i => by simpa using hclosed i, ?_⟩
          refine htimer _ ?_
          simp [allTransmitted]
      | mixed n =>
          cases n with
          | zero =>
              rw [show flowStep (InvokePayloadKind.mixed 0) f FlowEvent.afterSend
                  = setResponseTimeoutModel
                      { f with handlersInstalled := true, sentResolved := true } from rfl,
                setResponseTimeoutModel_fields]
              refine ⟨by simp, by simp, fun i => by simpa using hclosed i, ?_⟩
              simp [embeddedStreams]
          | succ m =>
              rw [show flowStep (InvokePayloadKind.mixed (m + 1)) f FlowEvent.afterSend
                  = checkTransmitDone (InvokePayloadKind.mixed (m + 1))
                      { f with handlersInstalled := true, sentResolved := true } from rfl,
                checkTransmitDone_fields]
              refine ⟨by simp, by simp, fun i => by simpa using hclosed i, ?_⟩
              refine htimer _ ?_
              simp [allTransmitted]
  | streamClosed j =>
      have hmema : (FlowEvent.afterSend ∈ seen ++ [FlowEvent.streamClosed j])
          ↔ FlowEvent.afterSend ∈ seen := by simp
      by_cases hj : j < embeddedStreams k
      · rw [show flowStep k f (FlowEvent.streamClosed j)
            = checkTransmitDone k
                { f with closedResolved := fun i => if i = j then true else f.closedResolved i }
            from by simp [flowStep, hj],
          checkTransmitDone_fields]
        refine ⟨by simpa [hmema] using hh, by simpa [hmema] using hs, ?_, ?_⟩
        · intro i
          show (if i = j then true else f.closedResolved i) = _
          by_cases hij : i = j
          · subst hij
            simp [hj]
          · rw [if_neg hij, hc i]
            simp [hij]
        · show (f.timerArmed || (allTransmitted k _ && f.handlersInstalled)) = _
          have hallT : allTransmitted k
              { f with closedResolved := fun i => if i = j then true else f.closedResolved i }
              = (decide (FlowEvent.afterSend ∈ seen)
                  && decide (∀ i < embeddedStreams k,
                      FlowEvent.streamClosed i ∈ seen ++ [FlowEvent.streamClosed j])) := by
            show (f.sentResolved && _) = _
            rw [hs]
            congr 1
            rw [decide_eq_decide]
            constructor
            · intro hcon i hi
              have h1 : (if i = j then true else f.closedResolved i) = true := hcon i hi
              by_cases hij : i = j
              · simp [hij]
              · rw [if_neg hij, hc i] at h1
                simp [hi] at h1
                simp [h1]
            · intro hcon i hi
              show (if i = j then true else f.closedResolved i) = true
              by_cases hij : i = j
              · simp [hij]
              · have h1 := hcon i hi
                simp [hij] at h1
                rw [if_neg hij, hc i]
                simp [hi, h1]
          rw [hallT, ht, hh]
          have hCimp : (∀ i < embeddedStreams k, FlowEvent.streamClosed i ∈ seen) →
              ∀ i < embeddedStreams k,
                FlowEvent.streamClosed i ∈ seen ++ [FlowEvent.streamClosed j] :=
            fun hC i hi => by simp [hC i hi]
          by_cases hA : FlowEvent.afterSend ∈ seen
          · by_cases hCn : ∀ i < embeddedStreams k,
                FlowEvent.streamClosed i ∈ seen ++ [FlowEvent.streamClosed j]
            · simp [hA, hCn, hmema]
              exact fun hC i hi => Or.inl (hC i hi)
            · have hCf : ¬ ∀ i < embeddedStreams k, FlowEvent.streamClosed i ∈ seen :=
                fun hC => hCn (hCimp hC)
              simp [hA, hCn, hCf, hmema]
          · simp [hA, hmema]
      · rw [show flowStep k f (FlowEvent.streamClosed j) = f from by simp [flowStep, hj]]
        refine ⟨by simpa [hmema] using hh, by simpa [hmema] using hs, ?_, ?_⟩
        · intro i
          rw [hc i]
          by_cases hij : i = j
          · subst hij
            simp [hj]
          · simp [hij]
        · rw [ht]
          have : (∀ i < embeddedStreams k,
              FlowEvent.streamClosed i ∈ seen ++ [FlowEvent.streamClosed j])
              ↔ ∀ i < embeddedStreams k, FlowEvent.streamClosed i ∈ seen := by
            constructor
            · intro hcon i hi
              have h1 := hcon i hi
              simp at h1
              rcases h1 with h1 | h1
              · exact h1
              · exact absurd (h1 ▸ hi) hj
            · intro hcon i hi
              simp [hcon i hi]
          exact decide_eq_decide.mpr (and_congr hmema.symm this.symm)


theorem runFlow_invariant (k : InvokePayloadKind) (trace : List FlowEvent) :
    ∀ seen f, flowInvariant k seen f →
      flowInvariant k (seen ++ trace) (trace.foldl (flowStep k) f) := by
  induction trace with
  | nil => intro seen f h; simpa using h
  | cons e rest ih =>
      intro seen f h
      have := ih (seen ++ [e]) (flowStep k f e) (flowStep_invariant k seen f e h)
      simpa [List.append_assoc] using this

/-- C2: replaying any delivery order of `_afterSend` and the embedded
streams' `closed` resolutions over the wiring `prepareInvoke` installs:
the resolve/reject handlers are in the pending-invokes map exactly once
`_afterSend` has fired; the response timer is armed exactly when both
`_afterSend` has fired and every embedded stream has closed (so a payload
with an unclosed stream leaves the invoke pending, no timer armed); and
for stream-free payloads (plain JSON, binary, mixed without streams) the
timer is armed directly by `_afterSend`. -/
theorem prepareInvoke_timer_lazy_arming (k : InvokePayloadKind) (trace : List FlowEvent) :
    (runFlow k trace).handlersInstalled = decide (FlowEvent.afterSend ∈ trace) ∧
    (runFlow k trace).timerArmed
        = decide (FlowEvent.afterSend ∈ trace ∧
            ∀ i < embeddedStreams k, FlowEvent.streamClosed i ∈ trace) ∧
    (embeddedStreams k = 0 →
      (runFlow k trace).timerArmed = decide (FlowEvent.afterSend ∈ trace)) := by
  have h0 : flowInvariant k [] {} := by
    refine ⟨by simp, by simp, fun i => by simp, by simp⟩
  have h := runFlow_invariant k trace [] {} h0
  simp only [List.nil_append] at h
  obtain ⟨hh, hs, hc, ht⟩ := h
  have ht' : (runFlow k trace).timerArmed
      = decide (FlowEvent.afterSend ∈ trace ∧
          ∀ i < embeddedStreams k, FlowEvent.streamClosed i ∈ trace) := ht
  refine ⟨hh, ht', fun hz => ?_⟩
  rw [ht', hz]
  simp

/-- C2 witness: a mixed payload with one embedded stream — after
`_afterSend` alone the handlers are installed but no timer is armed; once
the stream's `closed` also resolves, the timer is armed; a plain-JSON
payload arms the timer at `_afterSend` directly. -/
theorem prepareInvoke_timer_lazy_arming_witness :
    (runFlow (InvokePayloadKind.mixed 1) [FlowEvent.afterSend]).handlersInstalled = true ∧
    (runFlow (InvokePayloadKind.mixed 1) [FlowEvent.afterSend]).timerArmed = false ∧
    (runFlow (InvokePayloadKind.mixed 1)
        [FlowEvent.afterSend, FlowEvent.streamClosed 0]).timerArmed = true ∧
    (runFlow InvokePayloadKind.plainJSON [FlowEvent.afterSend]).timerArmed = true := by
  refine ⟨?_, ?_, ?_, ?_⟩
  · rw [(prepareInvoke_timer_lazy_arming (InvokePayloadKind.mixed 1) [FlowEvent.afterSend]).1]
    decide
  · rw [(prepareInvoke_timer_lazy_arming (InvokePayloadKind.mixed 1)
      [FlowEvent.afterSend]).2.1]
    decide
  · rw [(prepareInvoke_timer_lazy_arming (InvokePayloadKind.mixed 1)
      [FlowEvent.afterSend, FlowEvent.streamClosed 0]).2.1]
    decide
  · rw [(prepareInvoke_timer_lazy_arming InvokePayloadKind.plainJSON [FlowEvent.afterSend]).2.1]
    decide

/-! ## Claim C5: binary-content frame parsing -/

/-- The blob section of a binary-content frame: each blob as
`(uint32 length, bytes)`, in order. -/
def encodeBlobs (content : List Blob) : List Nat :=
  content.flatMap fun b => writeU32 b.length ++ b

theorem createBinaryContentPacket_eq (refId : Int) (content : List Blob) :
    createBinaryContentPacket refId content = 5 :: writeF64 refId ++ encodeBlobs content := rfl

theorem writeU32_length (n : Nat) : (writeU32 n).length = 4 := rfl

theorem writeF64_length (id : Int) : (writeF64 id).length = 8 := rfl

theorem encodeBlobs_nil : encodeBlobs [] = [] := rfl

theorem encodeBlobs_cons (b : Blob) (rest : List Blob) :
    encodeBlobs (b :: rest) = writeU32 b.length ++ b ++ encodeBlobs rest := by
  simp [encodeBlobs]

theorem readU32_of_drop (bytes : List Nat) (off n : Nat) (t : List Nat)
    (h : bytes.drop off = writeU32 n ++ t) (hn : n < 4294967296) :
    readU32 bytes off = some n := by
  simp only [readU32, h, writeU32, List.cons_append, List.nil_append, Option.some.injEq]
  omega

theorem readF64_of_drop (bytes : List Nat) (off : Nat) (id : Int) (t : List Nat)
    (h : bytes.drop off = writeF64 id ++ t)
    (h1 : -9223372036854775808 ≤ id) (h2 : id < 9223372036854775808) :
    readF64 bytes off = some id := by
  simp only [readF64, h, writeF64, List.cons_append, List.nil_append, Option.some.injEq]
  have hm : ((id + 9223372036854775808).toNat % 18446744073709551616)
      = (id + 9223372036854775808).toNat := by
    omega
  rw [hm]
  push_cast
  omega

theorem scanBinaries_at_end (hasRes : Bool) (bytes : List Nat) :
    scanBinaries hasRes bytes bytes.length = Except.ok ([], bytes.length, false) := by
  rw [scanBinaries]
  simp

theorem scanBinaries_sentinel (hasRes : Bool) (bytes : List Nat) (off : Nat) (t : List Nat)
    (h : bytes.drop off = writeU32 NEXT_BINARIES_PACKET_TOKEN ++ t) :
    scanBinaries hasRes bytes off = Except.ok ([], off + 4, true) := by
  have hlt : off < bytes.length := by
    have hne : bytes.drop off ≠ [] := by
      rw [h]
      simp [writeU32]
    by_contra hcon
    exact hne (List.drop_eq_nil_of_le (by omega))
  have hr : readU32 bytes off = some NEXT_BINARIES_PACKET_TOKEN :=
    readU32_of_drop bytes off _ t h (by simp [NEXT_BINARIES_PACKET_TOKEN, MAX_UINT_32])
  rw [scanBinaries]
  simp [hlt, hr]

theorem scanBinaries_through (hasRes : Bool) (bytes : List Nat) (blobs : List Blob) :
    ∀ (off : Nat) (tail : List Nat),
      (∀ b ∈ blobs, b.length < NEXT_BINARIES_PACKET_TOKEN) →
      bytes.drop off = encodeBlobs blobs ++ tail →
      scanBinaries hasRes bytes off
        = (match scanBinaries hasRes bytes (off + (encodeBlobs blobs).length) with
           | Except.error e => Except.error e
           | Except.ok (bs, o, s) =>
               Except.ok ((if hasRes then blobs ++ bs else bs), o, s)) := by
  induction blobs with
  | nil =>
      intro off tail _ _
      simp only [encodeBlobs_nil, List.length_nil, Nat.add_zero]
      cases hscan : scanBinaries hasRes bytes off with
      | error e => rfl
      | ok r =>
          obtain ⟨bs, o, s⟩ := r
          simp
  | cons b rest ih =>
      intro off tail hlen hdrop
      rw [encodeBlobs_cons] at hdrop
      have hlt : off < bytes.length := by
        have hne : bytes.drop off ≠ [] := by
          rw [hdrop]
          simp [writeU32]
        by_contra hcon
        exact hne (List.drop_eq_nil_of_le (by omega))
      have hdrop0 : bytes.drop off = writeU32 b.length ++ (b ++ (encodeBlobs rest ++ tail)) := by
        rw [hdrop]
        simp
      have hr : readU32 bytes off = some b.length := by
        refine readU32_of_drop bytes off _ _ hdrop0 ?_
        have := hlen b (List.mem_cons_self b rest)
        simp [NEXT_BINARIES_PACKET_TOKEN, MAX_UINT_32] at this
        omega
      have hbneq : b.length ≠ NEXT_BINARIES_PACKET_TOKEN :=
        Nat.ne_of_lt (hlen b (List.mem_cons_self b rest))
      have hdrop4 : bytes.drop (off + 4) = b ++ (encodeBlobs rest ++ tail) := by
        have : bytes.drop (off + 4) = (bytes.drop off).drop 4 := by
          rw [List.drop_drop] <;> ring_nf
        rw [this, hdrop0]
        rw [show (4 : Nat) = (writeU32 b.length).length from rfl]
        exact List.drop_left _ _
      have hslice : sliceBytes bytes (off + 4) b.length = b := by
        unfold sliceBytes
        rw [hdrop4]
        exact List.take_left _ _
      have hdropnext : bytes.drop (off + 4 + b.length) = encodeBlobs rest ++ tail := by
        have : bytes.drop (off + 4 + b.length) = (bytes.drop (off + 4)).drop b.length := by
          rw [List.drop_drop] <;> ring_nf
        rw [this, hdrop4]
        exact List.drop_left _ _
      have harith : off + 4 + b.length + (encodeBlobs rest).length
          = off + (writeU32 b.length ++ b ++ encodeBlobs rest).length := by
        simp [writeU32_length]
        omega
      have hrest := ih (off + 4 + b.length) tail
        (fun x hx => hlen x (List.mem_cons_of_mem b hx)) hdropnext
      rw [scanBinaries]
      simp only [hlt, dif_pos, hr]
      rw [if_neg hbneq, hrest, harith, ← encodeBlobs_cons]
      cases hfin : scanBinaries hasRes bytes (off + (encodeBlobs (b :: rest)).length) with
      | error e => rfl
      | ok r =>
          obtain ⟨bs, o, s⟩ := r
          cases hasRes <;> simp [hslice]

theorem processBinaryContentPacket_step (resolvers : List Int) (bytes : List Nat)
    (offset : Nat) (id : Int) (blobs : List Blob) (off : Nat) (sent : Bool)
    (hread : readF64 bytes offset = some id)
    (hscan : scanBinaries (resolvers.contains id) bytes (offset + 8)
      = Except.ok (blobs, off, sent)) :
    processBinaryContentPacket resolvers bytes offset
      = (if sent then
          match processBinaryContentPacket
              (if resolvers.contains id then resolvers.erase id else resolvers) bytes off with
          | none => none
          | some (rf, evs) =>
              some (rf, (if resolvers.contains id
                then [BCEvent.timeoutCleared id, BCEvent.fired id blobs] else []) ++ evs)
         else some ((if resolvers.contains id then resolvers.erase id else resolvers),
            (if resolvers.contains id
              then [BCEvent.timeoutCleared id, BCEvent.fired id blobs] else []))) := by
  cases sent with
  | true =>
      rw [if_pos rfl]
      generalize hR : (match processBinaryContentPacket
          (if resolvers.contains id then resolvers.erase id else resolvers) bytes off with
        | none => none
        | some (rf, evs) =>
            some (rf, (if resolvers.contains id
              then [BCEvent.timeoutCleared id, BCEvent.fired id blobs] else []) ++ evs)) = R
      rw [processBinaryContentPacket.eq_def]
      split
      · rename_i h0
        rw [hread] at h0
        cases h0
      · rename_i id2 h0
        rw [hread] at h0
        injection h0 with h0
        subst h0
        dsimp only
        split
        · rename_i h1
          rw [hscan] at h1
          cases h1
        · rename_i binaries off2 sentinel h1
          rw [hscan] at h1
          injection h1 with h1
          injection h1 with hb h1
          injection h1 with ho hsnt
          subst hb
          subst ho
          subst hsnt
          rw [← hR]
          simp
  | false =>
      rw [if_neg (by simp)]
      generalize hR : some ((if resolvers.contains id then resolvers.erase id else resolvers),
          (if resolvers.contains id
            then [BCEvent.timeoutCleared id, BCEvent.fired id blobs] else [])) = R
      rw [processBinaryContentPacket.eq_def]
      split
      · rename_i h0
        rw [hread] at h0
        cases h0
      · rename_i id2 h0
        rw [hread] at h0
        injection h0 with h0
        subst h0
        dsimp only
        split
        · rename_i h1
          rw [hscan] at h1
          cases h1
        · rename_i binaries off2 sentinel h1
          rw [hscan] at h1
          injection h1 with h1
          injection h1 with hb h1
          injection h1 with ho hsnt
          subst hb
          subst ho
          subst hsnt
          rw [← hR]
          simp

/-- C5: processing a binary-content frame with a registered resolver scans
`(uint32 len, bytes)` blobs until the frame is exhausted or the
`NEXT_BINARIES_PACKET_TOKEN` sentinel length is read, then clears the
resolver's timeout, removes it and fires it exactly once with the blobs
collected so far; when the sentinel was seen, the remainder is processed
as a continuation binary-content read — a chained continuation carrying
the same id (whose resolver was just removed) is scanned but fires
nothing further. -/
theorem processBinaryContentPacket_spec (resolvers : List Int) (id : Int)
    (blobs blobs2 : List Blob)
    (hmem : resolvers.contains id = true)
    (hnd : resolvers.Nodup)
    (hlen : ∀ b ∈ blobs, b.length < NEXT_BINARIES_PACKET_TOKEN)
    (hlen2 : ∀ b ∈ blobs2, b.length < NEXT_BINARIES_PACKET_TOKEN)
    (hid1 : -9223372036854775808 ≤ id) (hid2 : id < 9223372036854775808) :
    processBinaryContentPacket resolvers (createBinaryContentPacket id blobs) 1
      = some (resolvers.erase id, [BCEvent.timeoutCleared id, BCEvent.fired id blobs]) ∧
    processBinaryContentPacket resolvers
        (createBinaryContentPacket id blobs ++ writeU32 NEXT_BINARIES_PACKET_TOKEN
          ++ writeF64 id ++ encodeBlobs blobs2) 1
      = some (resolvers.erase id, [BCEvent.timeoutCleared id, BCEvent.fired id blobs]) := by
  have hnotmem : id ∉ resolvers.erase id := fun hcon =>
    absurd rfl ((List.Nodup.mem_erase_iff hnd).mp hcon).1
  have herase : (resolvers.erase id).contains id = false := by
    simpa using hnotmem
  have hdropat : ∀ (l t : List Nat) (n : Nat), n = l.length → (l ++ t).drop n = t := by
    intro l t n h
    subst h
    exact List.drop_left _ _
  constructor
  · -- (a) a plain frame: one firing with all the blobs
    have hframe : createBinaryContentPacket id blobs
        = (5 :: writeF64 id) ++ encodeBlobs blobs := by
      rw [createBinaryContentPacket_eq]
    have hread : readF64 (createBinaryContentPacket id blobs) 1 = some id := by
      refine readF64_of_drop _ 1 id (encodeBlobs blobs) ?_ hid1 hid2
      rw [createBinaryContentPacket_eq]
      rfl
    have hdrop9 : (createBinaryContentPacket id blobs).drop 9 = encodeBlobs blobs ++ [] := by
      rw [hframe, List.append_nil]
      exact hdropat _ _ 9 (by simp [writeF64_length])
    have hlen9 : 9 + (encodeBlobs blobs).length = (createBinaryContentPacket id blobs).length := by
      rw [hframe]
      simp [writeF64_length]
      omega
    have hscan : scanBinaries (resolvers.contains id) (createBinaryContentPacket id blobs) (1 + 8)
        = Except.ok (blobs, (createBinaryContentPacket id blobs).length, false) := by
      rw [hmem]
      rw [show (1 + 8 : Nat) = 9 from rfl]
      rw [scanBinaries_through true _ blobs 9 [] hlen hdrop9, hlen9, scanBinaries_at_end]
      simp
    rw [processBinaryContentPacket_step resolvers _ 1 id blobs
      (createBinaryContentPacket id blobs).length false hread hscan]
    rw [hmem]
    simp
  · -- (b) the chained frame: one firing, then a continuation read with no resolver
    have hbytes : createBinaryContentPacket id blobs ++ writeU32 NEXT_BINARIES_PACKET_TOKEN
        ++ writeF64 id ++ encodeBlobs blobs2
        = (5 :: writeF64 id) ++ encodeBlobs blobs ++ writeU32 NEXT_BINARIES_PACKET_TOKEN
            ++ writeF64 id ++ encodeBlobs blobs2 := by
      rw [createBinaryContentPacket_eq]
    have hread : readF64 (createBinaryContentPacket id blobs
        ++ writeU32 NEXT_BINARIES_PACKET_TOKEN ++ writeF64 id ++ encodeBlobs blobs2) 1
        = some id := by
      refine readF64_of_drop _ 1 id
        (encodeBlobs blobs ++ writeU32 NEXT_BINARIES_PACKET_TOKEN
          ++ writeF64 id ++ encodeBlobs blobs2) ?_ hid1 hid2
      rw [hbytes]
      simp only [List.append_assoc, List.cons_append]
      rw [show (1 : Nat) = ([5] : List Nat).length from rfl]
      rw [show (5 : Nat) :: (writeF64 id ++ (encodeBlobs blobs
          ++ (writeU32 NEXT_BINARIES_PACKET_TOKEN ++ (writeF64 id ++ encodeBlobs blobs2))))
        = [5] ++ (writeF64 id ++ (encodeBlobs blobs
          ++ (writeU32 NEXT_BINARIES_PACKET_TOKEN ++ (writeF64 id ++ encodeBlobs blobs2))))
        from rfl]
      rw [List.drop_left]
    have hdrop9 : (createBinaryContentPacket id blobs
        ++ writeU32 NEXT_BINARIES_PACKET_TOKEN ++ writeF64 id ++ encodeBlobs blobs2).drop 9
        = encodeBlobs blobs ++ (writeU32 NEXT_BINARIES_PACKET_TOKEN
            ++ (writeF64 id ++ encodeBlobs blobs2)) := by
      rw [hbytes]
      simp only [List.append_assoc]
      exact hdropat (5 :: writeF64 id) _ 9 (by simp [writeF64_length])
    have hdropT : (createBinaryContentPacket id blobs
        ++ writeU32 NEXT_BINARIES_PACKET_TOKEN ++ writeF64 id ++ encodeBlobs blobs2).drop
          (9 + (encodeBlobs blobs).length)
        = writeU32 NEXT_BINARIES_PACKET_TOKEN ++ (writeF64 id ++ encodeBlobs blobs2) := by
      rw [hbytes]
      rw [show (5 : Nat) :: writeF64 id ++ encodeBlobs blobs
          ++ writeU32 NEXT_BINARIES_PACKET_TOKEN ++ writeF64 id ++ encodeBlobs blobs2
        = ((5 :: writeF64 id) ++ encodeBlobs blobs)
          ++ (writeU32 NEXT_BINARIES_PACKET_TOKEN ++ (writeF64 id ++ encodeBlobs blobs2))
        from by simp]
      exact hdropat _ _ _ (by simp [writeF64_length] <;> omega)
    have hdropL2 : (createBinaryContentPacket id blobs
        ++ writeU32 NEXT_BINARIES_PACKET_TOKEN ++ writeF64 id ++ encodeBlobs blobs2).drop
          (9 + (encodeBlobs blobs).length + 4)
        = writeF64 id ++ encodeBlobs blobs2 := by
      rw [hbytes]
      rw [show (5 : Nat) :: writeF64 id ++ encodeBlobs blobs
          ++ writeU32 NEXT_BINARIES_PACKET_TOKEN ++ writeF64 id ++ encodeBlobs blobs2
        = (((5 :: writeF64 id) ++ encodeBlobs blobs) ++ writeU32 NEXT_BINARIES_PACKET_TOKEN)
          ++ (writeF64 id ++ encodeBlobs blobs2)
        from by simp]
      exact hdropat _ _ _ (by simp [writeF64_length, writeU32_length] <;> omega)
    have hdropE2 : (createBinaryContentPacket id blobs
        ++ writeU32 NEXT_BINARIES_PACKET_TOKEN ++ writeF64 id ++ encodeBlobs blobs2).drop
          (9 + (encodeBlobs blobs).length + 4 + 8)
        = encodeBlobs blobs2 ++ [] := by
      rw [List.append_nil, hbytes]
      rw [show (5 : Nat) :: writeF64 id ++ encodeBlobs blobs
          ++ writeU32 NEXT_BINARIES_PACKET_TOKEN ++ writeF64 id ++ encodeBlobs blobs2
        = ((((5 :: writeF64 id) ++ encodeBlobs blobs) ++ writeU32 NEXT_BINARIES_PACKET_TOKEN)
            ++ writeF64 id) ++ encodeBlobs blobs2
        from by simp]
      exact hdropat _ _ _ (by simp [writeF64_length, writeU32_length] <;> omega)
    have hlenAll : 9 + (encodeBlobs blobs).length + 4 + 8 + (encodeBlobs blobs2).length
        = (createBinaryContentPacket id blobs ++ writeU32 NEXT_BINARIES_PACKET_TOKEN
            ++ writeF64 id ++ encodeBlobs blobs2).length := by
      rw [hbytes]
      simp [writeF64_length, writeU32_length]
      omega
    have hscan1 : scanBinaries (resolvers.contains id) (createBinaryContentPacket id blobs
        ++ writeU32 NEXT_BINARIES_PACKET_TOKEN ++ writeF64 id ++ encodeBlobs blobs2) (1 + 8)
        = Except.ok (blobs, 9 + (encodeBlobs blobs).length + 4, true) := by
      rw [hmem]
      rw [show (1 + 8 : Nat) = 9 from rfl]
      rw [scanBinaries_through true _ blobs 9 _ hlen hdrop9]
      rw [scanBinaries_sentinel true _ _ _ hdropT]
      simp
    have hread2 : readF64 (createBinaryContentPacket id blobs
        ++ writeU32 NEXT_BINARIES_PACKET_TOKEN ++ writeF64 id ++ encodeBlobs blobs2)
        (9 + (encodeBlobs blobs).length + 4) = some id :=
      readF64_of_drop _ _ id (encodeBlobs blobs2) hdropL2 hid1 hid2
    have hscan2 : scanBinaries ((resolvers.erase id).contains id)
        (createBinaryContentPacket id blobs ++ writeU32 NEXT_BINARIES_PACKET_TOKEN
          ++ writeF64 id ++ encodeBlobs blobs2) (9 + (encodeBlobs blobs).length + 4 + 8)
        = Except.ok ([], (createBinaryContentPacket id blobs
            ++ writeU32 NEXT_BINARIES_PACKET_TOKEN ++ writeF64 id
            ++ encodeBlobs blobs2).length, false) := by
      rw [herase]
      rw [scanBinaries_through false _ blobs2 _ [] hlen2 hdropE2, hlenAll, scanBinaries_at_end]
      simp
    have hrec := processBinaryContentPacket_step (resolvers.erase id) _
      (9 + (encodeBlobs blobs).length + 4) id [] _ false hread2 hscan2
    rw [herase] at hrec
    simp at hrec
    rw [processBinaryContentPacket_step resolvers _ 1 id blobs
      (9 + (encodeBlobs blobs).length + 4) true hread hscan1, hmem]
    simp [hrec]

/-- C5 witness: a concrete frame for id 7 carrying blobs `[1,2,3]` and
`[4]` with resolver 7 registered, plain and chained forms. -/
theorem processBinaryContentPacket_spec_witness :
    processBinaryContentPacket [7] (createBinaryContentPacket 7 [[1, 2, 3], [4]]) 1
        = some ([], [BCEvent.timeoutCleared 7, BCEvent.fired 7 [[1, 2, 3], [4]]]) ∧
    processBinaryContentPacket [7]
        (createBinaryContentPacket 7 [[1, 2, 3], [4]] ++ writeU32 NEXT_BINARIES_PACKET_TOKEN
          ++ writeF64 7 ++ encodeBlobs [[9]]) 1
        = some ([], [BCEvent.timeoutCleared 7, BCEvent.fired 7 [[1, 2, 3], [4]]]) :=
  processBinaryContentPacket_spec [7] 7 [[1, 2, 3], [4]] [[9]] (by decide) (by decide)
    (by decide) (by decide) (by decide) (by decide)

/-! ## Claim C8: per-package stream limit -/

mutual

/-- The number of `{_s:sid}` stream placeholders the resolve walk
materializes in a parsed JSON tree (placeholder objects are not entered,
matching the walk). -/
def streamPlaceholderCount : JVal → Nat
  | JVal.obj fields =>
      match jlookupNum fields "_s" with
      | some _ => 1
      | none => streamPlaceholderCountFields fields
  | JVal.arr items => streamPlaceholderCountList items
  | _ => 0

/-- `streamPlaceholderCount` over array elements. -/
def streamPlaceholderCountList : List JVal → Nat
  | [] => 0
  | v :: rest => streamPlaceholderCount v + streamPlaceholderCountList rest

/-- `streamPlaceholderCount` over object fields. -/
def streamPlaceholderCountFields : List (String × JVal) → Nat
  | [] => 0
  | (_, v) :: rest => streamPlaceholderCount v + streamPlaceholderCountFields rest

end

theorem JVal.myInductionJ {P : JVal → Prop}
    (hnull : P JVal.null) (hbool : ∀ b, P (JVal.bool b)) (hnum : ∀ n, P (JVal.num n))
    (hstr : ∀ s, P (JVal.str s))
    (harr : ∀ l, (∀ x ∈ l, P x) → P (JVal.arr l))
    (hobj : ∀ l, (∀ kv ∈ l, P kv.2) → P (JVal.obj l)) :
    ∀ v, P v := by
  have H : ∀ n : Nat, ∀ v : JVal, sizeOf v ≤ n → P v := by
    intro n
    induction n with
    | zero =>
        intro v hv
        cases v <;> simp at hv
    | succ n ih =>
        intro v hv
        cases v with
        | null => exact hnull
        | bool b => exact hbool b
        | num m => exact hnum m
        | str s => exact hstr s
        | arr l =>
            refine harr l fun x hx => ih x ?_
            have h1 := List.sizeOf_lt_of_mem hx
            simp only [JVal.arr.sizeOf_spec] at hv
            omega
        | obj l =>
            refine hobj l fun kv hkv => ih kv.2 ?_
            have h1 := List.sizeOf_lt_of_mem hkv
            have h2 : sizeOf kv.2 < sizeOf kv := by
              obtain ⟨a, b⟩ := kv
              simp only [Prod.mk.sizeOf_spec]
              omega
            simp only [JVal.obj.sizeOf_spec] at hv
            omega
  exact fun v => H (sizeOf v) v (le_refl _)

theorem resolveList_stream_count (limit : Nat) (l : List JVal)
    (hP : ∀ x ∈ l, ∀ c : Nat,
      (c + streamPlaceholderCount x ≤ limit →
        ∃ d, internalResolveMixedJSONDeep ⟨true, false⟩ limit none x c
          = Except.ok (d, c + streamPlaceholderCount x)) ∧
      (c ≤ limit → limit < c + streamPlaceholderCount x →
        internalResolveMixedJSONDeep ⟨true, false⟩ limit none x c
          = Except.error "Max stream limit reached.")) :
    ∀ c : Nat,
      (c + streamPlaceholderCountList l ≤ limit →
        ∃ ds, resolveList ⟨true, false⟩ limit none l c
          = Except.ok (ds, c + streamPlaceholderCountList l)) ∧
      (c ≤ limit → limit < c + streamPlaceholderCountList l →
        resolveList ⟨true, false⟩ limit none l c
          = Except.error "Max stream limit reached.") := by
  induction l with
  | nil =>
      intro c
      refine ⟨fun _ => ⟨[], by simp [resolveList, streamPlaceholderCountList]⟩,
        fun hc hlt => ?_⟩
      simp only [streamPlaceholderCountList] at hlt
      omega
  | cons v rest ih =>
      intro c
      have hv := hP v (List.mem_cons_self v rest)
      have ihr := ih fun x hx => hP x (List.mem_cons_of_mem v hx)
      constructor
      · intro hle
        simp only [streamPlaceholderCountList] at hle ⊢
        obtain ⟨d, hd⟩ := (hv c).1 (by omega)
        obtain ⟨ds, hds⟩ := (ihr (c + streamPlaceholderCount v)).1 (by omega)
        refine ⟨d :: ds, ?_⟩
        simp only [resolveList, hd, hds, bind, Except.bind]
        rw [Nat.add_assoc]
        rfl
      · intro hc hlt
        simp only [streamPlaceholderCountList] at hlt
        by_cases hvle : c + streamPlaceholderCount v ≤ limit
        · obtain ⟨d, hd⟩ := (hv c).1 hvle
          have hrest := (ihr (c + streamPlaceholderCount v)).2 hvle (by omega)
          simp only [resolveList, hd, hrest, bind, Except.bind]
        · have herr := (hv c).2 hc (by omega)
          simp only [resolveList, herr, bind, Except.bind]

theorem resolveFields_stream_count (limit : Nat) (l : List (String × JVal))
    (hP : ∀ kv ∈ l, ∀ c : Nat,
      (c + streamPlaceholderCount kv.2 ≤ limit →
        ∃ d, internalResolveMixedJSONDeep ⟨true, false⟩ limit none kv.2 c
          = Except.ok (d, c + streamPlaceholderCount kv.2)) ∧
      (c ≤ limit → limit < c + streamPlaceholderCount kv.2 →
        internalResolveMixedJSONDeep ⟨true, false⟩ limit none kv.2 c
          = Except.error "Max stream limit reached.")) :
    ∀ c : Nat,
      (c + streamPlaceholderCountFields l ≤ limit →
        ∃ ds, resolveFields ⟨true, false⟩ limit none l c
          = Except.ok (ds, c + streamPlaceholderCountFields l)) ∧
      (c ≤ limit → limit < c + streamPlaceholderCountFields l →
        resolveFields ⟨true, false⟩ limit none l c
          = Except.error "Max stream limit reached.") := by
  induction l with
  | nil =>
      intro c
      refine ⟨fun _ => ⟨[], by simp [resolveFields, streamPlaceholderCountFields]⟩,
        fun hc hlt => ?_⟩
      simp only [streamPlaceholderCountFields] at hlt
      omega
  | cons kv rest ih =>
      obtain ⟨k, v⟩ := kv
      intro c
      have hv := hP (k, v) (List.mem_cons_self _ rest)
      dsimp only at hv
      have ihr := ih fun x hx => hP x (List.mem_cons_of_mem _ hx)
      constructor
      · intro hle
        simp only [streamPlaceholderCountFields] at hle ⊢
        obtain ⟨d, hd⟩ := (hv c).1 (by omega)
        obtain ⟨ds, hds⟩ := (ihr (c + streamPlaceholderCount v)).1 (by omega)
        refine ⟨(unescapePlaceholderSequence k, d) :: ds, ?_⟩
        simp only [resolveFields, hd, hds, bind, Except.bind]
        rw [Nat.add_assoc]
        rfl
      · intro hc hlt
        simp only [streamPlaceholderCountFields] at hlt
        by_cases hvle : c + streamPlaceholderCount v ≤ limit
        · obtain ⟨d, hd⟩ := (hv c).1 hvle
          have hrest := (ihr (c + streamPlaceholderCount v)).2 hvle (by omega)
          simp only [resolveFields, hd, hrest, bind, Except.bind]
        · have herr := (hv c).2 hc (by omega)
          simp only [resolveFields, herr, bind, Except.bind]

theorem resolve_stream_count (limit : Nat) (v : JVal) :
    ∀ c : Nat,
      (c + streamPlaceholderCount v ≤ limit →
        ∃ d, internalResolveMixedJSONDeep ⟨true, false⟩ limit none v c
          = Except.ok (d, c + streamPlaceholderCount v)) ∧
      (c ≤ limit → limit < c + streamPlaceholderCount v →
        internalResolveMixedJSONDeep ⟨true, false⟩ limit none v c
          = Except.error "Max stream limit reached.") := by
  induction v using JVal.myInductionJ with
  | hnull =>
      intro c
      exact ⟨fun _ => ⟨DVal.null, by simp [internalResolveMixedJSONDeep, streamPlaceholderCount]⟩,
        fun hc hlt => by simp [streamPlaceholderCount] at hlt; omega⟩
  | hbool b =>
      intro c
      exact ⟨fun _ => ⟨DVal.bool b, by simp [internalResolveMixedJSONDeep, streamPlaceholderCount]⟩,
        fun hc hlt => by simp [streamPlaceholderCount] at hlt; omega⟩
  | hnum n =>
      intro c
      exact ⟨fun _ => ⟨DVal.num n, by simp [internalResolveMixedJSONDeep, streamPlaceholderCount]⟩,
        fun hc hlt => by simp [streamPlaceholderCount] at hlt; omega⟩
  | hstr s =>
      intro c
      exact ⟨fun _ => ⟨DVal.str s, by simp [internalResolveMixedJSONDeep, streamPlaceholderCount]⟩,
        fun hc hlt => by simp [streamPlaceholderCount] at hlt; omega⟩
  | harr l hl =>
      intro c
      have := resolveList_stream_count limit l hl c
      constructor
      · intro hle
        simp only [streamPlaceholderCount] at hle ⊢
        obtain ⟨ds, hds⟩ := this.1 hle
        exact ⟨DVal.arr ds, by simp only [internalResolveMixedJSONDeep, hds, bind, Except.bind]; rfl⟩
      · intro hc hlt
        simp only [streamPlaceholderCount] at hlt
        have herr := this.2 hc hlt
        simp only [internalResolveMixedJSONDeep, herr, bind, Except.bind]
  | hobj l hl =>
      intro c
      constructor
      · intro hle
        match hlk : jlookupNum l "_s" with
        | some sid =>
            simp only [streamPlaceholderCount, hlk] at hle
            refine ⟨DVal.rstream sid, ?_⟩
            have hcount : streamPlaceholderCount (JVal.obj l) = 1 := by
              simp only [streamPlaceholderCount, hlk]
            rw [hcount]
            simp [internalResolveMixedJSONDeep, hlk]
            omega
        | none =>
            simp only [streamPlaceholderCount, hlk] at hle
            obtain ⟨ds, hds⟩ := (resolveFields_stream_count limit l hl c).1 hle
            refine ⟨DVal.obj ds, ?_⟩
            have hcount : streamPlaceholderCount (JVal.obj l)
                = streamPlaceholderCountFields l := by
              simp only [streamPlaceholderCount, hlk]
            rw [hcount]
            simp [internalResolveMixedJSONDeep, hlk, hds]
      · intro hc hlt
        match hlk : jlookupNum l "_s" with
        | some sid =>
            simp only [streamPlaceholderCount, hlk] at hlt
            simp [internalResolveMixedJSONDeep, hlk]
            omega
        | none =>
            simp only [streamPlaceholderCount, hlk] at hlt
            have herr := (resolveFields_stream_count limit l hl c).2 hc hlt
            simp [internalResolveMixedJSONDeep, hlk, herr]

/-- C8: resolving an inbound packet's mixed JSON with stream parsing
enabled materializes at most `streamsPerPackageLimit` read streams: a tree
with at most that many `{_s:sid}` placeholders resolves without ever
reaching the limit-error branch, and a tree with more fails the decode
with the limit error instead of materializing the excess streams; the
default limit of `Transport.DEFAULT_OPTIONS` is 20. -/
theorem streamsPerPackageLimit_enforced (t : JVal) (limit : Nat) :
    (streamPlaceholderCount t ≤ limit →
      ∃ d, resolveMixedJSONDeep ⟨true, false⟩ limit none t = Except.ok d) ∧
    (limit < streamPlaceholderCount t →
      resolveMixedJSONDeep ⟨true, false⟩ limit none t
        = Except.error "Max stream limit reached.") ∧
    DEFAULT_STREAMS_PER_PACKAGE_LIMIT = 20 := by
  refine ⟨?_, ?_, rfl⟩
  · intro hle
    obtain ⟨d, hd⟩ := (resolve_stream_count limit t 0).1 (by omega)
    exact ⟨d, by simp [resolveMixedJSONDeep, hd, Except.map]⟩
  · intro hlt
    have herr := (resolve_stream_count limit t 0).2 (by omega) (by omega)
    simp [resolveMixedJSONDeep, herr, Except.map]

/-! ## Claim C1: mixed-JSON round trip -/

theorem UVal.myInductionU {P : UVal → Prop}
    (hnull : P UVal.null) (hbool : ∀ b, P (UVal.bool b)) (hnum : ∀ n, P (UVal.num n))
    (hstr : ∀ s, P (UVal.str s)) (hdate : ∀ t, P (UVal.date t))
    (hblob : ∀ b, P (UVal.blob b)) (hws : ∀ b, P (UVal.wstream b))
    (harr : ∀ l, (∀ x ∈ l, P x) → P (UVal.arr l))
    (hobj : ∀ l, (∀ kv ∈ l, P kv.2) → P (UVal.obj l)) :
    ∀ v, P v := by
  have H : ∀ n : Nat, ∀ v : UVal, sizeOf v ≤ n → P v := by
    intro n
    induction n with
    | zero =>
        intro v hv
        cases v <;> simp at hv
    | succ n ih =>
        intro v hv
        cases v with
        | null => exact hnull
        | bool b => exact hbool b
        | num m => exact hnum m
        | str s => exact hstr s
        | date t => exact hdate t
        | blob b => exact hblob b
        | wstream b => exact hws b
        | arr l =>
            refine harr l fun x hx => ih x ?_
            have h1 := List.sizeOf_lt_of_mem hx
            simp only [UVal.arr.sizeOf_spec] at hv
            omega
        | obj l =>
            refine hobj l fun kv hkv => ih kv.2 ?_
            have h1 := List.sizeOf_lt_of_mem hkv
            have h2 : sizeOf kv.2 < sizeOf kv := by
              obtain ⟨a, b⟩ := kv
              simp only [Prod.mk.sizeOf_spec]
              omega
            simp only [UVal.obj.sizeOf_spec] at hv
            omega
  exact fun v => H (sizeOf v) v (le_refl _)

theorem processMixedList_state (l : List UVal)
    (hP : ∀ x ∈ l, ∀ st : EncState,
      (processMixedJSONDeep true x st).2.binaries = st.binaries ++ encBlobs x ∧
      (processMixedJSONDeep true x st).2.ids = (expectedResolved x st.ids).2 ∧
      (processMixedJSONDeep true x st).2.streams.length
        = st.streams.length + streamNodeCount x) :
    ∀ st : EncState,
      (processMixedList true l st).2.binaries = st.binaries ++ encBlobsList l ∧
      (processMixedList true l st).2.ids = (expectedResolvedList l st.ids).2 ∧
      (processMixedList true l st).2.streams.length
        = st.streams.length + streamNodeCountList l := by
  induction l with
  | nil =>
      intro st
      simp [processMixedList, encBlobsList, expectedResolvedList, streamNodeCountList]
  | cons v rest ih =>
      intro st
      have hv := hP v (List.mem_cons_self v rest) st
      have ihr := ih (fun x hx => hP x (List.mem_cons_of_mem v hx))
        (processMixedJSONDeep true v st).2
      simp only [processMixedList, encBlobsList, expectedResolvedList, streamNodeCountList]
      refine ⟨?_, ?_, ?_⟩
      · rw [ihr.1, hv.1, List.append_assoc]
      · rw [ihr.2.1, hv.2.1]
      · rw [ihr.2.2, hv.2.2]
        omega

theorem processMixedFields_state (l : List (String × UVal))
    (hP : ∀ kv ∈ l, ∀ st : EncState,
      (processMixedJSONDeep true kv.2 st).2.binaries = st.binaries ++ encBlobs kv.2 ∧
      (processMixedJSONDeep true kv.2 st).2.ids = (expectedResolved kv.2 st.ids).2 ∧
      (processMixedJSONDeep true kv.2 st).2.streams.length
        = st.streams.length + streamNodeCount kv.2) :
    ∀ st : EncState,
      (processMixedFields true l st).2.binaries = st.binaries ++ encBlobsFields l ∧
      (processMixedFields true l st).2.ids = (expectedResolvedFields l st.ids).2 ∧
      (processMixedFields true l st).2.streams.length
        = st.streams.length + streamNodeCountFields l := by
  induction l with
  | nil =>
      intro st
      simp [processMixedFields, encBlobsFields, expectedResolvedFields, streamNodeCountFields]
  | cons kv rest ih =>
      obtain ⟨k, v⟩ := kv
      intro st
      have hv := hP (k, v) (List.mem_cons_self _ rest) st
      dsimp only at hv
      have ihr := ih (fun x hx => hP x (List.mem_cons_of_mem _ hx))
        (processMixedJSONDeep true v st).2
      simp only [processMixedFields, encBlobsFields, expectedResolvedFields,
        streamNodeCountFields]
      refine ⟨?_, ?_, ?_⟩
      · rw [ihr.1, hv.1, List.append_assoc]
      · rw [ihr.2.1, hv.2.1]
      · rw [ihr.2.2, hv.2.2]
        omega

theorem processMixed_state (v : UVal) :
    ∀ st : EncState,
      (processMixedJSONDeep true v st).2.binaries = st.binaries ++ encBlobs v ∧
      (processMixedJSONDeep true v st).2.ids = (expectedResolved v st.ids).2 ∧
      (processMixedJSONDeep true v st).2.streams.length
        = st.streams.length + streamNodeCount v := by
  induction v using UVal.myInductionU with
  | hnull =>
      intro st
      simp [processMixedJSONDeep, encBlobs, expectedResolved, streamNodeCount]
  | hbool b =>
      intro st
      simp [processMixedJSONDeep, encBlobs, expectedResolved, streamNodeCount]
  | hnum n =>
      intro st
      simp [processMixedJSONDeep, encBlobs, expectedResolved, streamNodeCount]
  | hstr s =>
      intro st
      simp [processMixedJSONDeep, encBlobs, expectedResolved, streamNodeCount]
  | hdate t =>
      intro st
      simp [processMixedJSONDeep, encBlobs, expectedResolved, streamNodeCount]
  | hblob b =>
      intro st
      simp [processMixedJSONDeep, encBlobs, expectedResolved, streamNodeCount]
  | hws b =>
      intro st
      simp [processMixedJSONDeep, encBlobs, expectedResolved, streamNodeCount]
  | harr l hl =>
      intro st
      have := processMixedList_state l hl st
      simp only [processMixedJSONDeep, encBlobs, expectedResolved, streamNodeCount]
      exact this
  | hobj l hl =>
      intro st
      have := processMixedFields_state l hl st
      simp only [processMixedJSONDeep, encBlobs, expectedResolved, streamNodeCount]
      exact this

theorem get_append_len (l : List Blob) (b : Blob) (r : List Blob)
    (h : l.length < (l ++ b :: r).length) :
    (l ++ b :: r).get ⟨l.length, h⟩ = b := by
  induction l with
  | nil => rfl
  | cons a l ih => simpa using ih (by simpa using h)

theorem jlookupNum_processed_none (fields : List (String × UVal)) (key : String)
    (hk : ∀ s, escapePlaceholderSequence s ≠ key) :
    ∀ st : EncState,
      jlookupNum (toJsonFields (processMixedFields true fields st).1) key = none := by
  induction fields with
  | nil =>
      intro st
      simp [processMixedFields, toJsonFields, jlookupNum, jlookup]
  | cons kv rest ih =>
      obtain ⟨k, v⟩ := kv
      intro st
      have hne : (escapePlaceholderSequence k == key) = false := by
        simp only [beq_eq_false_iff_ne, ne_eq]
        exact hk k
      have ihr := ih (processMixedJSONDeep true v st).2
      simp only [processMixedFields, toJsonFields, jlookupNum, jlookup, List.find?] at ihr ⊢
      rw [hne]
      exact ihr

/-- The round-trip statement for one user value: resolving the encoded and
JSON-serialized form with the binaries the encoder collected (any extension
of them) and matching options yields the expected resolved value, advancing
the stream count by the value's stream nodes. -/
def MixedRoundTrip (v : UVal) : Prop :=
  ∀ (st : EncState) (c : Nat) (mb : Option (List Blob)) (ps pb : Bool) (limit : Nat),
    hasDate v = false →
    c + streamNodeCount v ≤ limit →
    (streamNodeCount v ≠ 0 → ps = true) →
    (encBlobs v ≠ [] → pb = true) →
    (encBlobs v = [] ∨ ∃ ext, mb = some (st.binaries ++ (encBlobs v ++ ext))) →
    internalResolveMixedJSONDeep ⟨ps, pb⟩ limit mb
        (toJson (processMixedJSONDeep true v st).1) c
      = Except.ok ((expectedResolved v st.ids).1, c + streamNodeCount v)

theorem mixedRoundTripList (l : List UVal) (hP : ∀ x ∈ l, MixedRoundTrip x) :
    ∀ (st : EncState) (c : Nat) (mb : Option (List Blob)) (ps pb : Bool) (limit : Nat),
      hasDateList l = false →
      c + streamNodeCountList l ≤ limit →
      (streamNodeCountList l ≠ 0 → ps = true) →
      (encBlobsList l ≠ [] → pb = true) →
      (encBlobsList l = [] ∨ ∃ ext, mb = some (st.binaries ++ (encBlobsList l ++ ext))) →
      resolveList ⟨ps, pb⟩ limit mb (toJsonList (processMixedList true l st).1) c
        = Except.ok ((expectedResolvedList l st.ids).1, c + streamNodeCountList l) := by
  induction l with
  | nil =>
      intro st c mb ps pb limit _ _ _ _ _
      simp [processMixedList, toJsonList, resolveList, expectedResolvedList,
        streamNodeCountList]
  | cons v rest ih =>
      intro st c mb ps pb limit hdate hcount hps hpb hmb
      simp only [hasDateList, Bool.or_eq_false_iff] at hdate
      simp only [streamNodeCountList] at hcount ⊢
      have hv := hP v (List.mem_cons_self v rest) st c mb ps pb limit hdate.1
        (by omega)
        (fun hne => hps (by simp only [streamNodeCountList]; omega))
        (fun hne => hpb (by
          simp only [encBlobsList]
          intro hcon
          exact hne (by
            rcases List.append_eq_nil.mp hcon with ⟨h1, _⟩
            exact h1)))
        (by
          rcases hmb with hmb | ⟨ext, hmb⟩
          · left
            rcases List.append_eq_nil.mp (by simpa [encBlobsList] using hmb) with ⟨h1, _⟩
            exact h1
          · by_cases hvb : encBlobs v = []
            · exact Or.inl hvb
            · refine Or.inr ⟨encBlobsList rest ++ ext, ?_⟩
              rw [hmb]
              simp [encBlobsList, List.append_assoc])
      have hstate := processMixed_state v st
      have hrest := ih (fun x hx => hP x (List.mem_cons_of_mem v hx))
        (processMixedJSONDeep true v st).2 (c + streamNodeCount v) mb ps pb limit
        hdate.2
        (by omega)
        (fun hne => hps (by simp only [streamNodeCountList]; omega))
        (fun hne => hpb (by
          simp only [encBlobsList]
          intro hcon
          exact hne (List.append_eq_nil.mp hcon).2))
        (by
          rcases hmb with hmb | ⟨ext, hmb⟩
          · left
            exact (List.append_eq_nil.mp (by simpa [encBlobsList] using hmb)).2
          · by_cases hrb : encBlobsList rest = []
            · exact Or.inl hrb
            · refine Or.inr ⟨ext, ?_⟩
              rw [hmb, hstate.1]
              simp [encBlobsList, List.append_assoc])
      simp only [processMixedList, toJsonList, resolveList, expectedResolvedList]
      rw [hv]
      simp only [bind, Except.bind]
      rw [hrest]
      simp only [hstate.2.1]
      rw [Nat.add_assoc]
      rfl

theorem mixedRoundTripFields (l : List (String × UVal)) (hP : ∀ kv ∈ l, MixedRoundTrip kv.2) :
    ∀ (st : EncState) (c : Nat) (mb : Option (List Blob)) (ps pb : Bool) (limit : Nat),
      hasDateFields l = false →
      c + streamNodeCountFields l ≤ limit →
      (streamNodeCountFields l ≠ 0 → ps = true) →
      (encBlobsFields l ≠ [] → pb = true) →
      (encBlobsFields l = [] ∨ ∃ ext, mb = some (st.binaries ++ (encBlobsFields l ++ ext))) →
      resolveFields ⟨ps, pb⟩ limit mb (toJsonFields (processMixedFields true l st).1) c
        = Except.ok ((expectedResolvedFields l st.ids).1, c + streamNodeCountFields l) := by
  induction l with
  | nil =>
      intro st c mb ps pb limit _ _ _ _ _
      simp [processMixedFields, toJsonFields, resolveFields, expectedResolvedFields,
        streamNodeCountFields]
  | cons kv rest ih =>
      obtain ⟨k, v⟩ := kv
      intro st c mb ps pb limit hdate hcount hps hpb hmb
      simp only [hasDateFields, Bool.or_eq_false_iff] at hdate
      simp only [streamNodeCountFields] at hcount ⊢
      have hv := hP (k, v) (List.mem_cons_self _ rest) st c mb ps pb limit hdate.1
        (by dsimp only; omega)
        (fun hne => hps (by dsimp only at hne; simp only [streamNodeCountFields]; omega))
        (fun hne => hpb (by
          simp only [encBlobsFields]
          intro hcon
          exact hne (List.append_eq_nil.mp hcon).1))
        (by
          rcases hmb with hmb | ⟨ext, hmb⟩
          · left
            exact (List.append_eq_nil.mp (by simpa [encBlobsFields] using hmb)).1
          · by_cases hvb : encBlobs v = []
            · exact Or.inl hvb
            · refine Or.inr ⟨encBlobsFields rest ++ ext, ?_⟩
              rw [hmb]
              simp [encBlobsFields, List.append_assoc])
      have hstate := processMixed_state v st
      have hrest := ih (fun x hx => hP x (List.mem_cons_of_mem _ hx))
        (processMixedJSONDeep true v st).2 (c + streamNodeCount v) mb ps pb limit
        hdate.2
        (by omega)
        (fun hne => hps (by simp only [streamNodeCountFields]; omega))
        (fun hne => hpb (by
          simp only [encBlobsFields]
          intro hcon
          exact hne (List.append_eq_nil.mp hcon).2))
        (by
          rcases hmb with hmb | ⟨ext, hmb⟩
          · left
            exact (List.append_eq_nil.mp (by simpa [encBlobsFields] using hmb)).2
          · by_cases hrb : encBlobsFields rest = []
            · exact Or.inl hrb
            · refine Or.inr ⟨ext, ?_⟩
              rw [hmb, hstate.1]
              simp [encBlobsFields, List.append_assoc])
      simp only [processMixedFields, toJsonFields, resolveFields, expectedResolvedFields]
      rw [hv]
      simp only [bind, Except.bind]
      rw [hrest]
      simp only [hstate.2.1, unescape_escape]
      rw [Nat.add_assoc]
      rfl

theorem mixedRoundTrip (v : UVal) : MixedRoundTrip v := by
  induction v using UVal.myInductionU with
  | hnull =>
      intro st c mb ps pb limit _ _ _ _ _
      simp [processMixedJSONDeep, toJson, internalResolveMixedJSONDeep, expectedResolved,
        streamNodeCount]
  | hbool b =>
      intro st c mb ps pb limit _ _ _ _ _
      simp [processMixedJSONDeep, toJson, internalResolveMixedJSONDeep, expectedResolved,
        streamNodeCount]
  | hnum n =>
      intro st c mb ps pb limit _ _ _ _ _
      simp [processMixedJSONDeep, toJson, internalResolveMixedJSONDeep, expectedResolved,
        streamNodeCount]
  | hstr s =>
      intro st c mb ps pb limit _ _ _ _ _
      simp [processMixedJSONDeep, toJson, internalResolveMixedJSONDeep, expectedResolved,
        streamNodeCount]
  | hdate t =>
      intro st c mb ps pb limit hdate _ _ _ _
      simp [hasDate] at hdate
  | hblob b =>
      intro st c mb ps pb limit _ _ _ hpb hmb
      have hpb' : pb = true := hpb (by simp [encBlobs])
      subst hpb'
      rcases hmb with hmb | ⟨ext, hmb⟩
      · exact absurd hmb (by simp [encBlobs])
      subst hmb
      have hbb : (("_b" : String) == "_b") = true := by decide
      simp [processMixedJSONDeep, toJson, toJsonFields, internalResolveMixedJSONDeep,
        jlookupNum, jlookup, List.find?, hbb, expectedResolved, streamNodeCount]
      split
      · have hget := get_append_len st.binaries b ext (by simp)
        simp at hget
        simpa [encBlobs] using hget
      · rename_i hcond
        exact absurd (Or.inl (by simp [encBlobs])) hcond
  | hws bin =>
      intro st c mb ps pb limit _ hcount hps _ _
      have hps' : ps = true := hps (by simp [streamNodeCount])
      subst hps'
      simp only [streamNodeCount] at hcount
      have hsb : (("_s" : String) == "_b") = false := by decide
      have hss : (("_s" : String) == "_s") = true := by decide
      simp [processMixedJSONDeep, toJson, toJsonFields, internalResolveMixedJSONDeep,
        jlookupNum, jlookup, List.find?, hsb, hss, expectedResolved, streamNodeCount]
      omega
  | harr l hl =>
      intro st c mb ps pb limit hdate hcount hps hpb hmb
      have hlist := mixedRoundTripList l hl st c mb ps pb limit
        (by simpa [hasDate] using hdate)
        (by simpa [streamNodeCount] using hcount)
        (by simpa [streamNodeCount] using hps)
        (by simpa [encBlobs] using hpb)
        (by simpa [encBlobs] using hmb)
      simp only [processMixedJSONDeep, toJson, internalResolveMixedJSONDeep]
      rw [hlist]
      simp only [bind, Except.bind, expectedResolved, streamNodeCount]
      rfl
  | hobj l hl =>
      intro st c mb ps pb limit hdate hcount hps hpb hmb
      have hfields := mixedRoundTripFields l hl st c mb ps pb limit
        (by simpa [hasDate] using hdate)
        (by simpa [streamNodeCount] using hcount)
        (by simpa [streamNodeCount] using hps)
        (by simpa [encBlobs] using hpb)
        (by simpa [encBlobs] using hmb)
      have hnb := jlookupNum_processed_none l "_b" (fun s => escape_ne_b s) st
      have hns := jlookupNum_processed_none l "_s" (fun s => escape_ne_s s) st
      simp only [processMixedJSONDeep, toJson, internalResolveMixedJSONDeep, hnb, hns,
        ite_self]
      rw [hfields]
      simp only [bind, Except.bind, expectedResolved, streamNodeCount]
      rfl

/-- C1 (corrected): for every Date-free value built from JSON primitives,
objects, arrays, blobs and write streams whose stream-placeholder count stays
within the per-package limit, encoding with `_processMixedJSONDeep` and then
decoding with `_resolveMixedJSONDeep` (given the collected binaries) yields
exactly the expected structural copy: blobs byte-equal, write streams
materialized as read-stream handles carrying the encoder-allocated ids, and
every other node — adversarial user keys literally named `_b`/`_s` included —
structurally unchanged.  `Date` values are excluded because they do not
survive the round trip (see the counterexample): `JSON.stringify` serializes
them to strings via `toJSON` and the resolve walk never rebuilds a `Date`. -/
theorem mixedJSON_roundtrip (v : UVal) (limit : Nat)
    (hdate : hasDate v = false)
    (hcount : streamNodeCount v ≤ limit) :
    resolveMixedJSONDeep ⟨true, true⟩ limit
        (some (processMixedJSONDeep true v {}).2.binaries)
        (toJson (processMixedJSONDeep true v {}).1)
      = Except.ok (expectedResolved v {}).1 := by
  have h := mixedRoundTrip v {} 0 (some (processMixedJSONDeep true v {}).2.binaries)
      true true limit hdate (by omega) (fun _ => rfl) (fun _ => rfl)
      (by
        by_cases hb : encBlobs v = []
        · exact Or.inl hb
        · refine Or.inr ⟨[], ?_⟩
          rw [(processMixed_state v {}).1]
          simp)
  simp [resolveMixedJSONDeep, Except.map, h]

/-- C1 counterexample to the original claim: a bare `Date` value does not
round-trip.  The encode walk leaves the `Date` in place, `JSON.stringify`
turns it into its `toJSON` string, and the resolve walk returns that string —
not a structurally equal `Date`. -/
theorem mixedJSON_date_not_roundtrip :
    resolveMixedJSONDeep ⟨true, true⟩ 20 none
        (toJson (processMixedJSONDeep true (UVal.date 0) {}).1)
      ≠ Except.ok (expectedResolved (UVal.date 0) {}).1 :=
  fun h => DVal.noConfusion (Except.ok.inj h)

/-- Closed witness for the corrected C1 round trip: an object with an
adversarial `_b` key holding a blob and a plain key holding a write stream. -/
theorem mixedJSON_roundtrip_witness :
    hasDate (UVal.obj [("_b", UVal.blob [1, 2]), ("a", UVal.wstream false)]) = false ∧
    streamNodeCount (UVal.obj [("_b", UVal.blob [1, 2]), ("a", UVal.wstream false)]) ≤ 20 ∧
    resolveMixedJSONDeep ⟨true, true⟩ 20
        (some (processMixedJSONDeep true
          (UVal.obj [("_b", UVal.blob [1, 2]), ("a", UVal.wstream false)]) {}).2.binaries)
        (toJson (processMixedJSONDeep true
          (UVal.obj [("_b", UVal.blob [1, 2]), ("a", UVal.wstream false)]) {}).1)
      = Except.ok (expectedResolved
          (UVal.obj [("_b", UVal.blob [1, 2]), ("a", UVal.wstream false)]) {}).1 :=
  ⟨by simp [hasDate, hasDateFields],
   by simp [streamNodeCount, streamNodeCountFields],
   mixedJSON_roundtrip _ 20
     (by simp [hasDate, hasDateFields])
     (by simp [streamNodeCount, streamNodeCountFields])⟩

end Ziron
